import Mathlib

/-!
noob-gpu: a shallow embedding of the benchmark programs.

Sources embedded here:

* `cpu_threads.c`: `sum_part`, `run_test`, `main` (thread-pool sum)
* `matmul/matmul.c`: `matrix_multiply`
* `matmul/matmul_gpu.c`, `vadd_2.c`, `vadd_3.c`: the device kernels `matmul`
  and `vector_add`, the device-selection loop, the sequence of OpenCL calls
  of each `main`, and the host result checks

Conventions.  C `int` values are `Int`; the C quotient `/` on `int` is
`Int.tdiv` (truncation toward zero).  A loop `for (i = a; i < b; i++)` is a
structural recursion on its trip count `(b - a).toNat`, carrying the loop
variable.  An access outside an array, a division by zero, or the increment
of an `int` counter at `INT_MAX` has no defined behaviour in C and is `none`.
The sums of `cpu_threads.c` are exact integers:
`window_sum_bound` shows that with `int` entries they stay inside `long long`.
-/

namespace NoobGpu

/-! ## cpu_threads.c -/

/-- The macro `MAX_THREADS`. -/
def MAX_THREADS : Nat := 8

/-- The struct `ThreadData` (the field `end` is spelled `end_`). -/
structure ThreadData where
  start : Int
  end_ : Int
  thread_index : Int
deriving DecidableEq

/-- An array read `arr[i]` with a C `int` index. -/
def array_read (arr : List Int) (i : Int) : Option Int :=
  if 0 ≤ i then arr[i.toNat]? else none

/-- An array write `arr[i] = v` with a C `int` index. -/
def array_write (arr : List Int) (i : Int) (v : Int) : Option (List Int) :=
  if 0 ≤ i ∧ i.toNat < arr.length then some (arr.set i.toNat v) else none

/-- The loop `for (; i < ...; i++) sum += arr[i];` with `n` iterations left.
It is the loop of `sum_part` (lines 18-20) and the two summation loops of
`run_test` (lines 65-67 and 76-78). -/
def sum_loop (arr : List Int) : Nat → Int → Int → Option Int
  | 0, _, sum => some sum
  | n + 1, i, sum =>
    match array_read arr i with
    | none => none
    | some x => sum_loop arr n (i + 1) (sum + x)

/-- The worker `sum_part`: sums `data[start .. end)` and stores the sum in
`partial_sums[thread_index]`; returns the new `partial_sums`. -/
def sum_part (data partial_sums : List Int) (td : ThreadData) : Option (List Int) :=
  match sum_loop data (td.end_ - td.start).toNat td.start 0 with
  | none => none
  | some sum => array_write partial_sums td.thread_index sum

/-- The body of the launch loop, lines 46-48: the `ThreadData` of worker `i`. -/
def chunk (array_size num_cores chunk_size i : Int) : ThreadData :=
  { start := i * chunk_size
    end_ := if i = num_cores - 1 then array_size else (i + 1) * chunk_size
    thread_index := i }

/-- The chunks assigned by the launch loop of `run_test` (lines 37 and 45-48),
in worker order: `chunk_size = array_size / num_cores`, then one `ThreadData`
per `i = 0 .. num_cores - 1`. -/
def partition (array_size num_cores : Int) : List ThreadData :=
  (List.range num_cores.toNat).map
    (fun (i : Nat) => chunk array_size num_cores (array_size.tdiv num_cores) (i : Int))

/-- The launch loop of `run_test`, lines 45-56, with `n` iterations left:
fills `thread_data[i]` and starts worker `i`.  `thread_data` and `threads`
hold `MAX_THREADS` entries.  The workers write disjoint slots of
`partial_sums` and only read `data`, so each worker is run to completion
when it is created.  `CreateThread` is taken to succeed. -/
def launch_loop (data : List Int) (array_size num_cores chunk_size : Int) :
    Nat → Int → List ThreadData → List Int → Option (List ThreadData × List Int)
  | 0, _, thread_data, partial_sums => some (thread_data, partial_sums)
  | n + 1, i, thread_data, partial_sums =>
    if i < (MAX_THREADS : Int) then
      let td := chunk array_size num_cores chunk_size i
      match sum_part data partial_sums td with
      | none => none
      | some ps => launch_loop data array_size num_cores chunk_size n (i + 1)
          (thread_data ++ [td]) ps
    else none

/-- What one call of `run_test` leaves behind. -/
structure RunResult where
  thread_data : List ThreadData
  partial_sums : List Int
  total_sum : Int
  single_sum : Int
deriving DecidableEq

/-- Lines 37-78 of `run_test` over a given `data` array and a given content
of the global `partial_sums`. -/
def run_sums (data partial_sums : List Int) (array_size num_cores : Int) :
    Option RunResult :=
  if num_cores = 0 then none
  else
    match launch_loop data array_size num_cores (array_size.tdiv num_cores)
        num_cores.toNat 0 [] partial_sums with
    | none => none
    | some (thread_data, ps) =>
      match sum_loop ps num_cores.toNat 0 0 with
      | none => none
      | some total_sum =>
        match sum_loop data array_size.toNat 0 0 with
        | none => none
        | some single_sum => some ⟨thread_data, ps, total_sum, single_sum⟩

/-- The function `run_test`: `data` is allocated with `array_size` entries,
all set to `1` (lines 26-33; `malloc` is taken to succeed), then summed. -/
def run_test (partial_sums : List Int) (array_size num_cores : Int) : Option RunResult :=
  run_sums (List.replicate array_size.toNat 1) partial_sums array_size num_cores

/-- The index range `[start, end)` of a chunk. -/
def ThreadData.covers (td : ThreadData) (x : Int) : Prop :=
  td.start ≤ x ∧ x < td.end_

instance (td : ThreadData) (x : Int) : Decidable (td.covers x) := by
  unfold ThreadData.covers; infer_instance


/-! ## float32

The `float` operations the programs use.  They are uninterpreted: no law of
arithmetic is assumed of them, so what is proved holds for whichever rounding
the processor applies.  Host and device are taken to compute with the same
operations.  Buffers of `float` are maps from the index to the value. -/

/-- The operations on `float` that occur in the sources. -/
structure FloatOps (F : Type) where
  /-- The literal `0.0f`. -/
  zero : F
  /-- The operator `+`. -/
  add : F → F → F
  /-- The operator `-`. -/
  sub : F → F → F
  /-- The operator `*`. -/
  mul : F → F → F
  /-- The function `fabs`, stored back into a `float`. -/
  fabs : F → F
  /-- The comparison `==`. -/
  eq : F → F → Bool
  /-- The comparison `x < TOL * TOL` of matmul_gpu.c. -/
  lt_tol_sq : F → Bool

/-- A store `buf[i] = v`. -/
def store {F : Type} (buf : Nat → F) (i : Nat) (v : F) : Nat → F :=
  fun j => if j = i then v else buf j

/-! ## The type `int`

A loop counter declared `int` is compared with an `unsigned int` bound after
conversion to `unsigned int`; while the counter is not negative that is the
comparison of the two numbers.  An increment of the counter at `INT_MAX`
overflows, which the language leaves undefined: the model has no result
there. -/

/-- The largest value of the type `int`, `2^31 - 1`. -/
def INT_MAX : Nat := 2147483647

/-- A value as a 32-bit two's complement `int` holds it. -/
def wrap_int32 (x : Int) : Int :=
  (x + 2 ^ 31) % 2 ^ 32 - 2 ^ 31

/-! ## matmul/matmul.c -/

/-- A store `mat[i][j] = v`. -/
def store2 {F : Type} (mat : Nat → Nat → F) (i j : Nat) (v : F) : Nat → Nat → F :=
  fun i' j' => if i' = i ∧ j' = j then v else mat i' j'

/-- The three matrices `matrix_multiply` is called on; they do not overlap. -/
structure Matrices (F : Type) where
  mat_A : Nat → Nat → F
  mat_B : Nat → Nat → F
  mat_C : Nat → Nat → F

/-- The loop `for (int k = 0; k < p; k++)` of `matrix_multiply` (lines
37-39), `n` iterations left.  The increment of the `int` counter at `INT_MAX`
is undefined. -/
def mm_k_loop {F : Type} (ops : FloatOps F) (mat_A mat_B : Nat → Nat → F) (i j : Nat) :
    Nat → Nat → F → Option F
  | 0, _, sum => some sum
  | n + 1, k, sum =>
    if k < INT_MAX then
      mm_k_loop ops mat_A mat_B i j n (k + 1) (ops.add sum (ops.mul (mat_A i k) (mat_B k j)))
    else none

/-- The loop `for (int j = 0; j < n; j++)` (lines 35-41), `n` iterations
left. -/
def mm_j_loop {F : Type} (ops : FloatOps F) (p i : Nat) :
    Nat → Nat → Matrices F → Option (Matrices F)
  | 0, _, s => some s
  | n + 1, j, s =>
    (mm_k_loop ops s.mat_A s.mat_B i j p 0 ops.zero).bind fun sum =>
      if j < INT_MAX then
        mm_j_loop ops p i n (j + 1) { s with mat_C := store2 s.mat_C i j sum }
      else none

/-- The loop `for (int i = 0; i < m; i++)` (lines 34-42), `n` iterations
left. -/
def mm_i_loop {F : Type} (ops : FloatOps F) (n_cols p : Nat) :
    Nat → Nat → Matrices F → Option (Matrices F)
  | 0, _, s => some s
  | n + 1, i, s =>
    (mm_j_loop ops p i n_cols 0 s).bind fun s1 =>
      if i < INT_MAX then mm_i_loop ops n_cols p n (i + 1) s1 else none

/-- The function `matrix_multiply`; `m`, `n` and `p` are `unsigned int`.  Under
`#pragma omp parallel` each of the `num_threads` threads of the team runs the
whole loop nest; the runs are taken one after the other.  There is no result
when a counter overflows. -/
def matrix_multiply {F : Type} (ops : FloatOps F) (num_threads : Nat) (s : Matrices F)
    (m n p : Nat) : Option (Matrices F) :=
  (fun r => Option.bind r (mm_i_loop ops n p m 0))^[num_threads] (some s)

/-! ## Device kernels and host checks -/

/-- A device buffer a kernel stores to, with the indices stored so far, the
latest last. -/
structure DevBuf (F : Type) where
  mem : Nat → F
  stored : List Nat

/-- A store `buf[i] = v` by a work item. -/
def DevBuf.store {F : Type} (d : DevBuf F) (i : Nat) (v : F) : DevBuf F :=
  { mem := NoobGpu.store d.mem i v, stored := d.stored ++ [i] }

/-- The kernel `vector_add` of vadd_2.c for the work item
`get_global_id(0) = gid`: `int i = get_global_id(0)` keeps the low 32 bits of
the id as an `int`, `i < count` compares it with the `unsigned int` `count`
as an `unsigned int`, and `c[i]`, `a[i]`, `b[i]` with a negative `i` lie
outside the buffers. -/
def vector_add {F : Type} (ops : FloatOps F) (a b : Nat → F) (c : DevBuf F)
    (count : Nat) (gid : Nat) : Option (DevBuf F) :=
  let i : Int := wrap_int32 gid
  if i % 2 ^ 32 < (count : Int) then
    if 0 ≤ i then some (c.store i.toNat (ops.add (a i.toNat) (b i.toNat))) else none
  else some c

/-- The call `clEnqueueNDRangeKernel` of vadd_2.c followed by `clFinish`: one
work item per global id.  The work items touch disjoint data; they are run one
after the other in the order `schedule`, which lists each id of the index
space once. -/
def vadd_2_ndrange {F : Type} (ops : FloatOps F) (a b : Nat → F) (c : DevBuf F)
    (count : Nat) : List Nat → Option (DevBuf F)
  | [] => some c
  | gid :: rest =>
    (vector_add ops a b c count gid).bind fun d => vadd_2_ndrange ops a b d count rest

/-- The result check of vadd_2.c (lines 218-226), the loop
`for (int i = 0; i < count; i++)` with `n` iterations left; `count` is an
`unsigned int`, and the increment of the `int` counter at `INT_MAX` is
undefined. -/
def vadd_2_check {F : Type} (ops : FloatOps F) (h_a h_b h_c : Nat → F) :
    Nat → Nat → Nat → Option Nat
  | 0, _, correct => some correct
  | n + 1, i, correct =>
    if i < INT_MAX then
      vadd_2_check ops h_a h_b h_c n (i + 1)
        (if ops.eq (ops.add (h_a i) (h_b i)) (h_c i) then correct + 1 else correct)
    else none

/-- Lines 180-226 of vadd_2.c: the inputs go to the device, the kernel runs
over the index space of size `count`, `d_c` is read back into `h_c` and
checked; returns `correct`.  Neither `d_c` nor `h_c` is initialised: what
`d_c` holds before the kernel runs is the parameter `h_c`. -/
def vadd_2_run {F : Type} (ops : FloatOps F) (h_a h_b h_c : Nat → F) (count : Nat)
    (schedule : List Nat) : Option Nat :=
  (vadd_2_ndrange ops h_a h_b ⟨h_c, []⟩ count schedule).bind fun d =>
    vadd_2_check ops h_a h_b d.mem count 0 0

/-- The loop over `k` of the kernel `matmul` (lines 40-43), `n` iterations
left.  The indices are `unsigned int`. -/
def matmul_k_loop {F : Type} (ops : FloatOps F) (N K : Nat) (A B : Nat → F)
    (global_row global_col : Nat) : Nat → Nat → F → F
  | 0, _, k_acc => k_acc
  | n + 1, k, k_acc =>
    matmul_k_loop ops N K A B global_row global_col n (k + 1)
      (ops.add k_acc
        (ops.mul (A ((global_row * K + k) % 2 ^ 32)) (B ((N * k + global_col) % 2 ^ 32))))

/-- The kernel `matmul` of matmul_gpu.c for the work item
`(get_global_id(0), get_global_id(1)) = (global_row, global_col)`. -/
def matmul {F : Type} (ops : FloatOps F) (M N K : Nat) (A B : Nat → F) (C : DevBuf F)
    (global_row global_col : Nat) : DevBuf F :=
  C.store ((global_row * N + global_col) % 2 ^ 32)
    (matmul_k_loop ops N K A B global_row global_col K 0 ops.zero)

/-- The call `clEnqueueNDRangeKernel` of matmul_gpu.c followed by `clFinish`,
the work items run one after the other in the order `schedule`. -/
def matmul_ndrange {F : Type} (ops : FloatOps F) (M N K : Nat) (A B : Nat → F)
    (C : DevBuf F) (schedule : List (Nat × Nat)) : DevBuf F :=
  schedule.foldl (fun d w => matmul ops M N K A B d w.1 w.2) C

/-- The loop over `k` of the host check (lines 176-178), `n` iterations left. -/
def expected_loop {F : Type} (ops : FloatOps F) (SIZE : Nat) (h_a h_b : Nat → F)
    (i j : Nat) : Nat → Nat → F → F
  | 0, _, expected => expected
  | n + 1, k, expected =>
    expected_loop ops SIZE h_a h_b i j n (k + 1)
      (ops.add expected (ops.mul (h_a (SIZE * i + k)) (h_b (SIZE * k + j))))

/-- The test of the host check (lines 181-182) on `actual` and `expected`. -/
def within_tol {F : Type} (ops : FloatOps F) (actual expected : F) : Bool :=
  let diff := ops.fabs (ops.sub actual expected)
  ops.lt_tol_sq (ops.mul diff diff)

/-- The loop over `j` of the host check (lines 174-185), `n` iterations left. -/
def check_j_loop {F : Type} (ops : FloatOps F) (SIZE : Nat) (h_a h_b h_c : Nat → F)
    (i : Nat) : Nat → Nat → Nat → Nat
  | 0, _, correct => correct
  | n + 1, j, correct =>
    check_j_loop ops SIZE h_a h_b h_c i n (j + 1)
      (if within_tol ops (h_c (SIZE * i + j))
          (expected_loop ops SIZE h_a h_b i j SIZE 0 ops.zero)
        then correct + 1 else correct)

/-- The loop over `i` of the host check (lines 173-186), `n` iterations left. -/
def check_i_loop {F : Type} (ops : FloatOps F) (SIZE : Nat) (h_a h_b h_c : Nat → F) :
    Nat → Nat → Nat → Nat
  | 0, _, correct => correct
  | n + 1, i, correct =>
    check_i_loop ops SIZE h_a h_b h_c n (i + 1)
      (check_j_loop ops SIZE h_a h_b h_c i SIZE 0 correct)

/-- The result check of matmul_gpu.c (lines 171-186); returns `correct`. -/
def matmul_check {F : Type} (ops : FloatOps F) (SIZE : Nat) (h_a h_b h_c : Nat → F) : Nat :=
  check_i_loop ops SIZE h_a h_b h_c SIZE 0 0

/-- Lines 117-186 of matmul_gpu.c with the macro `SIZE` as a parameter: the
kernel runs with `M = N = K = SIZE` over the `SIZE` by `SIZE` index space,
`d_c` is read back into `h_c` and checked; returns `correct`.  Neither `d_c`
nor `h_c` is initialised: what `d_c` holds before the kernel runs is the
parameter `h_c`. -/
def matmul_gpu_run {F : Type} (ops : FloatOps F) (SIZE : Nat) (h_a h_b h_c : Nat → F)
    (schedule : List (Nat × Nat)) : Nat :=
  matmul_check ops SIZE h_a h_b
    (matmul_ndrange ops SIZE SIZE SIZE h_a h_b ⟨h_c, []⟩ schedule).mem

/-! ## Device selection (vadd_2.c, vadd_3.c, matmul_gpu.c)

Handles (`cl_device_id`) are numbers, `NULL` being `0`.  The OpenCL runtime is
the environment: what its calls return is an input of the model.  The macro
`checkError` comes from err_code.h, which is not among the sources; it is a
parameter, `checkError err = true` meaning that the call ends the program. -/

/-- The code `CL_SUCCESS`. -/
def CL_SUCCESS : Int := 0

/-- The code `CL_DEVICE_NOT_FOUND`. -/
def CL_DEVICE_NOT_FOUND : Int := -1

/-- The null handle. -/
def NULL : Nat := 0

/-- What `clGetDeviceIDs(platform, CL_DEVICE_TYPE_GPU, 1, &device_id, NULL)`
does on one platform: the code it returns and the handle it stores through
`&device_id`, if it stores one. -/
structure Lookup where
  err : Int
  device : Option Nat
deriving DecidableEq

/-- The variables of the selection loop, and the indices of the platforms
queried so far, in order. -/
structure Selection where
  err : Int
  device_id : Nat
  queried : List Nat
deriving DecidableEq

/-- The selection loop (vadd_2.c lines 107-114, vadd_3.c lines 49-55,
matmul_gpu.c lines 65-72) over the platforms from index `i` on, given by their
lookup results in enumeration order. -/
def select_loop : List Lookup → Nat → Selection → Selection
  | [], _, st => st
  | p :: rest, i, st =>
    let st1 : Selection :=
      { err := p.err, device_id := p.device.getD st.device_id, queried := st.queried ++ [i] }
    if st1.err = CL_SUCCESS then st1 else select_loop rest (i + 1) st1

/-- What the runtime answers to the platform and device queries of one run:
the codes of the two `clGetPlatformIDs` calls and the lookup result of each
platform. -/
structure Runtime where
  count_err : Int
  list_err : Int
  lookups : List Lookup
deriving DecidableEq

/-- How the platform section of a program ends. -/
inductive AfterSelect
  | exits (err : Int)
  | creates_context (device_id : Nat)
deriving DecidableEq

/-- Lines 91-121 of vadd_2.c, and lines 33-62 of vadd_3.c, which read the
same: the local `device_id` is not initialised and starts as `device_id0`. -/
def vadd_select (checkError : Int → Bool) (rt : Runtime) (device_id0 : Nat) : AfterSelect :=
  if checkError rt.count_err then .exits rt.count_err
  else if checkError rt.list_err then .exits rt.list_err
  else
    let st := select_loop rt.lookups 0 ⟨rt.list_err, device_id0, []⟩
    if st.device_id = NULL then
      if checkError st.err then .exits st.err else .creates_context st.device_id
    else .creates_context st.device_id

/-- Lines 49-79 of matmul_gpu.c: the local `device_id` is not initialised and
starts as `device_id0`. -/
def matmul_gpu_select (checkError : Int → Bool) (rt : Runtime) (device_id0 : Nat) :
    AfterSelect :=
  if checkError rt.count_err then .exits rt.count_err
  else if checkError rt.list_err then .exits rt.list_err
  else
    let st := select_loop rt.lookups 0 ⟨rt.list_err, device_id0, []⟩
    if st.err ≠ CL_SUCCESS ∨ st.device_id = NULL then
      if checkError st.err then .exits st.err else .creates_context st.device_id
    else .creates_context st.device_id

/-! ## IEEE 754 binary32, as far as the tolerance test of matmul_gpu.c needs it

A finite `float` is a sign with a magnitude `m`: its absolute value is
`m * 2^-149`, a multiple of the smallest subnormal.  An operation on `float`
operands is rounded to `float`, to nearest with ties to even.  A positive
`double` constant is `mant * 2^-e`. -/

/-- The values of the type `float`. -/
inductive F32
  | nan
  | inf (neg : Bool)
  | fin (neg : Bool) (m : Nat)
deriving DecidableEq

/-- A magnitude that a `float` can have: at most 24 significant bits, below
`2^128`. -/
def F32.valid : F32 → Prop
  | .fin _ m => 2 ^ (Nat.log2 m - 23) ∣ m ∧ m < 2 ^ 128 * 2 ^ 149
  | _ => True

instance (x : F32) : Decidable x.valid := by
  cases x <;> unfold F32.valid <;> infer_instance

/-- The quotient `N / 2^s` rounded to the nearest integer, ties to even. -/
def round_nearest_even (N s : Nat) : Nat :=
  if 2 ^ s < 2 * (N % 2 ^ s) ∨ (2 * (N % 2 ^ s) = 2 ^ s ∧ N / 2 ^ s % 2 = 1) then
    N / 2 ^ s + 1
  else N / 2 ^ s

/-- For a real `N * 2^-298`, the exponent `s` such that the `float`s around it
are the multiples of `2^s * 2^-298`: 24 significant bits, and never finer than
the subnormal spacing `2^-149`. -/
def ulp_exp (N : Nat) : Nat :=
  max 149 (Nat.log2 N - 23)

/-- The `float` nearest to the real `N * 2^-298` with the sign `neg`;
infinite from `2^128` on. -/
@[irreducible]
def round_to_f32 (neg : Bool) (N : Nat) : F32 :=
  let m := round_nearest_even N (ulp_exp N) * 2 ^ (ulp_exp N - 149)
  if m < 2 ^ 128 * 2 ^ 149 then .fin neg m else .inf neg

/-- The operator `*` on `float`. -/
def F32.mul : F32 → F32 → F32
  | .nan, _ => .nan
  | _, .nan => .nan
  | .inf s1, .inf s2 => .inf (xor s1 s2)
  | .inf s1, .fin s2 m => if m = 0 then .nan else .inf (xor s1 s2)
  | .fin s1 m, .inf s2 => if m = 0 then .nan else .inf (xor s1 s2)
  | .fin s1 m1, .fin s2 m2 => round_to_f32 (xor s1 s2) (m1 * m2)

/-- The operator `+` on `float`.  Sums and differences of magnitudes are
exact multiples of `2^-149`; an exact zero from operands of opposite sign is
`+0`. -/
def F32.add : F32 → F32 → F32
  | .nan, _ => .nan
  | _, .nan => .nan
  | .inf s1, .inf s2 => if s1 = s2 then .inf s1 else .nan
  | .inf s1, .fin _ _ => .inf s1
  | .fin _ _, .inf s2 => .inf s2
  | .fin s1 a, .fin s2 b =>
    if s1 = s2 then round_to_f32 s1 ((a + b) * 2 ^ 149)
    else if a = b then .fin false 0
    else if b < a then round_to_f32 s1 ((a - b) * 2 ^ 149)
    else round_to_f32 s2 ((b - a) * 2 ^ 149)

/-- The unary `-` on `float`. -/
def F32.neg : F32 → F32
  | .nan => .nan
  | .inf s => .inf (!s)
  | .fin s m => .fin (!s) m

/-- The operator `-` on `float`. -/
def F32.sub (x y : F32) : F32 :=
  x.add y.neg

/-- The function `fabs`; its `double` result is a `float` again. -/
def F32.fabs : F32 → F32
  | .nan => .nan
  | .inf _ => .inf false
  | .fin _ m => .fin false m

/-- The comparison `==` on `float`. -/
def F32.eq : F32 → F32 → Bool
  | .inf a, .inf b => a == b
  | .fin a m, .fin b n => m == n && (a == b || m == 0)
  | _, _ => false

/-- The comparison `x < c` of a `float` with the positive `double`
`c = mant * 2^-e`. -/
def F32.lt_double (x : F32) (mant e : Nat) : Bool :=
  match x with
  | .nan => false
  | .inf neg => neg
  | .fin true _ => true
  | .fin false m => decide (m * 2 ^ e < mant * 2 ^ 149)

/-- The real number a finite `float` stands for: the magnitude `m` counts
units of `2^-149`.  NaN and the infinities stand for none. -/
def F32.value : F32 → Option ℚ
  | .fin neg m => some ((if neg then -(m : ℚ) else (m : ℚ)) / 2 ^ 149)
  | _ => none

/-- The macro `TOL`, the `double` nearest to `1e-3`, is `TOL_mant * 2^-62`. -/
def TOL_mant : Nat := 4611686018427388

/-- The `double` product `TOL * TOL` is `TOL_SQ_mant * 2^-72`. -/
def TOL_SQ_mant : Nat := round_nearest_even (TOL_mant * TOL_mant) 52

/-- The operations of matmul_gpu.c's check on IEEE `float`s; `+` and `-` stay
parameters. -/
def ieee_ops (add sub : F32 → F32 → F32) : FloatOps F32 where
  zero := .fin false 0
  add := add
  sub := sub
  mul := F32.mul
  fabs := F32.fabs
  eq := F32.eq
  lt_tol_sq := fun x => x.lt_double TOL_SQ_mant 72

/-! ## Reference values the statements compare with -/

/-- The sum that worker `td` stores: the entries of `data` in `[start, end)`,
as a difference of two prefix sums. -/
def chunk_sum (data : List Int) (td : ThreadData) : Int :=
  (data.take td.end_.toNat).sum - (data.take td.start.toNat).sum

/-- The boundary below worker `m`: `m * chunk_size`, and `N` for `m = P`. -/
def boundary (N P : Int) (m : Nat) : Nat :=
  if (m : Int) = P then N.toNat else ((m : Int) * N.tdiv P).toNat

/-- The sum over `k = 0 .. p-1` of `term k`, accumulated from `0.0f` in
ascending `k`. -/
def ascending_sum {F : Type} (ops : FloatOps F) (p : Nat) (term : Nat → F) : F :=
  (List.range p).foldl (fun sum k => ops.add sum (term k)) ops.zero

/-- Exact rational arithmetic with `TOL = 1/1000`: the operations without
rounding, used to evaluate the definitions on concrete inputs. -/
def exact_ops : FloatOps ℚ where
  zero := 0
  add := fun x y => x + y
  sub := fun x y => x - y
  mul := fun x y => x * y
  fabs := fun x => |x|
  eq := fun x y => decide (x = y)
  lt_tol_sq := fun x => decide (x < (1 / 1000) * (1 / 1000))

/-! ## The result checks of vadd_2.c and vadd_3.c, with what they print -/

/-- The result check of vadd_3.c (lines 139-147), the loop
`for (int t = 0; t < count; t++)` with `n` iterations left; the line printed
for each element is left out.  `count` is an `unsigned int`, and the
increment of the `int` counter at `INT_MAX` is undefined. -/
def vadd_3_check {F : Type} (ops : FloatOps F) (h_a h_b h_c h_d : Nat → F) :
    Nat → Nat → Nat → Option Nat
  | 0, _, correct => some correct
  | n + 1, t, correct =>
    if t < INT_MAX then
      vadd_3_check ops h_a h_b h_c h_d n (t + 1)
        (if ops.eq (ops.add (ops.add (h_a t) (h_b t)) (h_c t)) (h_d t) then correct + 1
          else correct)
    else none

/-- A line a check prints: `"%d correct"` or `"%d correct / %d total"`. -/
inductive Printed
  | correct_only (correct : Nat)
  | correct_of_total (correct total : Nat)
deriving DecidableEq

/-- Lines 139-153 of vadd_3.c: the check, the count, and the summary line,
which is printed when `correct == count`. -/
def vadd_3_report {F : Type} (ops : FloatOps F) (h_a h_b h_c h_d : Nat → F)
    (count : Nat) : Option (List Printed) :=
  (vadd_3_check ops h_a h_b h_c h_d count 0 0).map fun correct =>
    if correct = count then [.correct_only correct, .correct_of_total correct count]
    else [.correct_only correct]

/-- Lines 218-228 of vadd_2.c: the check and the summary line. -/
def vadd_2_report {F : Type} (ops : FloatOps F) (h_a h_b h_c : Nat → F)
    (count : Nat) : Option (List Printed) :=
  (vadd_2_check ops h_a h_b h_c count 0 0).map fun correct =>
    [.correct_of_total correct count]

/-! ## `main` of cpu_threads.c -/

/-- The array `sizes` of `main`. -/
def sizes : List Int :=
  [1000000, 10000000, 50000000, 100000000, 500000000, 1000000000]

/-- Lines 95-96 of `main`: the processor count, capped at `MAX_THREADS`. -/
def main_num_cores (dwNumberOfProcessors : Int) : Int :=
  if dwNumberOfProcessors > (MAX_THREADS : Int) then (MAX_THREADS : Int)
  else dwNumberOfProcessors

/-- The indices `data[i]` that `sum_part` reads for a chunk, in order. -/
def sum_part_reads (td : ThreadData) : List Int :=
  (List.range (td.end_ - td.start).toNat).map (fun (k : Nat) => td.start + (k : Int))

/-! ## The device pipelines of vadd_2.c, vadd_3.c and matmul_gpu.c

From `clCreateContext` on, each `main` is a straight line of OpenCL calls and
`checkError` calls.  A pipeline is the list of these statements in source
order; `exec` runs it on the variable `err` and records the calls made.  The
codes the runtime returns are an input, `rt`; `checkError err = true` means
that the call ends the program.  Host-side statements (filling the inputs,
the result check, `printf` of progress lines, `free`) are left out. -/

/-- The device buffers. -/
inductive Buffer
  | d_a | d_b | d_c | d_d
deriving DecidableEq

/-- The device resources a program acquires. -/
inductive Resource
  | context | commands | program | kernel
  | mem (b : Buffer)
deriving DecidableEq

/-- The OpenCL calls of the pipelines. -/
inductive Call
  | clCreateContext
  | clCreateCommandQueueWithProperties
  | clCreateProgramWithSource
  | clBuildProgram
  | clGetProgramBuildInfo
  | clCreateBuffer (b : Buffer)
  | clEnqueueWriteBuffer (b : Buffer)
  | clCreateKernel
  | clSetKernelArg (i : Nat)
  | clEnqueueNDRangeKernel
  | clFinish
  | clEnqueueReadBuffer (b : Buffer)
  | clReleaseMemObject (b : Buffer)
  | clReleaseProgram
  | clReleaseKernel
  | clReleaseCommandQueue
  | clReleaseContext
deriving DecidableEq

/-- The resource a call creates. -/
def Call.creates : Call → Option Resource
  | .clCreateContext => some .context
  | .clCreateCommandQueueWithProperties => some .commands
  | .clCreateProgramWithSource => some .program
  | .clCreateBuffer b => some (.mem b)
  | .clCreateKernel => some .kernel
  | _ => none

/-- The resource a call releases. -/
def Call.releases : Call → Option Resource
  | .clReleaseMemObject b => some (.mem b)
  | .clReleaseProgram => some .program
  | .clReleaseKernel => some .kernel
  | .clReleaseCommandQueue => some .commands
  | .clReleaseContext => some .context
  | _ => none

/-- What a run leaves to observe: a call with the code it returned, or the
build log printed by vadd_2.c. -/
inductive Event
  | called (c : Call) (code : Int)
  | printed_build_log
deriving DecidableEq

/-- The statements of a pipeline. -/
inductive Stmt
  /-- `err = c(...);` or `x = c(..., &err);` -/
  | assign (c : Call)
  /-- `err |= c(...);` -/
  | or_assign (c : Call)
  /-- `c(...);` with the result dropped -/
  | discard (c : Call)
  /-- `checkError(err, "...");` -/
  | checkError
  /-- Lines 140-145 of vadd_2.c:
  `if (err != CL_SUCCESS) { clGetProgramBuildInfo(...); printf("%s\n", buffer); }` -/
  | print_log_if_failed
deriving DecidableEq

/-- The state of a run: `err`, the events so far, and whether `checkError`
has ended the program. -/
structure Run where
  err : Int
  trace : List Event
  exited : Bool
deriving DecidableEq

/-- Runs the statements in order; stops where `checkError` ends the program. -/
def exec (rt : Call → Int) (checkError : Int → Bool) : List Stmt → Run → Run
  | [], st => st
  | .assign c :: rest, st =>
    exec rt checkError rest { st with err := rt c, trace := st.trace ++ [.called c (rt c)] }
  | .or_assign c :: rest, st =>
    exec rt checkError rest
      { st with err := Int.lor st.err (rt c), trace := st.trace ++ [.called c (rt c)] }
  | .discard c :: rest, st =>
    exec rt checkError rest { st with trace := st.trace ++ [.called c (rt c)] }
  | .checkError :: rest, st =>
    if checkError st.err then { st with exited := true } else exec rt checkError rest st
  | .print_log_if_failed :: rest, st =>
    if st.err ≠ CL_SUCCESS then
      exec rt checkError rest
        { st with trace := st.trace ++
            [.called .clGetProgramBuildInfo (rt .clGetProgramBuildInfo), .printed_build_log] }
    else exec rt checkError rest st

/-- Lines 121-215 of vadd_2.c. -/
def vadd_2_body : List Stmt :=
  [ .assign .clCreateContext, .checkError,
    .assign .clCreateCommandQueueWithProperties, .checkError,
    .assign .clCreateProgramWithSource, .checkError,
    .assign .clBuildProgram, .print_log_if_failed,
    .assign (.clCreateBuffer .d_a), .checkError,
    .assign (.clCreateBuffer .d_b), .checkError,
    .assign (.clCreateBuffer .d_c), .checkError,
    .assign (.clEnqueueWriteBuffer .d_a), .checkError,
    .assign (.clEnqueueWriteBuffer .d_b), .checkError,
    .assign .clCreateKernel, .checkError,
    .assign (.clSetKernelArg 0), .or_assign (.clSetKernelArg 1),
    .or_assign (.clSetKernelArg 2), .or_assign (.clSetKernelArg 3),
    .assign .clEnqueueNDRangeKernel, .checkError,
    .assign .clFinish, .checkError,
    .assign (.clEnqueueReadBuffer .d_c), .checkError ]

/-- Lines 231-237 of vadd_2.c, the clean-up. -/
def vadd_2_cleanup : List Stmt :=
  [ .discard (.clReleaseMemObject .d_a), .discard (.clReleaseMemObject .d_b),
    .discard (.clReleaseMemObject .d_c), .discard .clReleaseProgram,
    .discard .clReleaseKernel, .discard .clReleaseCommandQueue,
    .discard .clReleaseContext ]

/-- The pipeline of vadd_2.c, lines 121-237. -/
def vadd_2_main : List Stmt :=
  vadd_2_body ++ vadd_2_cleanup

/-- The pipeline of vadd_3.c, lines 62-136; the program ends without a
release call. -/
def vadd_3_main : List Stmt :=
  [ .assign .clCreateContext, .checkError,
    .assign .clCreateCommandQueueWithProperties, .checkError,
    .assign .clCreateProgramWithSource, .checkError,
    .assign .clBuildProgram,
    .assign (.clCreateBuffer .d_a), .assign (.clCreateBuffer .d_b),
    .assign (.clCreateBuffer .d_c), .assign (.clCreateBuffer .d_d),
    .assign (.clEnqueueWriteBuffer .d_a), .checkError,
    .assign (.clEnqueueWriteBuffer .d_b), .checkError,
    .assign (.clEnqueueWriteBuffer .d_c), .checkError,
    .assign .clCreateKernel, .checkError,
    .assign (.clSetKernelArg 0), .or_assign (.clSetKernelArg 1),
    .or_assign (.clSetKernelArg 2), .or_assign (.clSetKernelArg 3),
    .or_assign (.clSetKernelArg 4), .checkError,
    .assign .clEnqueueNDRangeKernel, .checkError,
    .assign .clFinish, .checkError,
    .assign (.clEnqueueReadBuffer .d_d), .checkError ]

/-- The pipeline of matmul_gpu.c, lines 79-168; the program ends without a
release call. -/
def matmul_gpu_main : List Stmt :=
  [ .assign .clCreateContext, .checkError,
    .assign .clCreateCommandQueueWithProperties, .checkError,
    .assign .clCreateProgramWithSource, .checkError,
    .assign .clBuildProgram,
    .assign (.clCreateBuffer .d_a), .assign (.clCreateBuffer .d_b),
    .assign (.clCreateBuffer .d_c),
    .assign (.clEnqueueWriteBuffer .d_a), .checkError,
    .assign (.clEnqueueWriteBuffer .d_b), .checkError,
    .assign .clCreateKernel,
    .assign (.clSetKernelArg 0), .or_assign (.clSetKernelArg 1),
    .or_assign (.clSetKernelArg 2), .or_assign (.clSetKernelArg 3),
    .or_assign (.clSetKernelArg 4), .or_assign (.clSetKernelArg 5), .checkError,
    .assign .clEnqueueNDRangeKernel, .checkError,
    .assign .clFinish, .checkError,
    .assign (.clEnqueueReadBuffer .d_c), .checkError ]

/-- The state in which a pipeline starts: `err` as the platform section left
it, nothing called yet. -/
def Run.start (err : Int) : Run :=
  { err := err, trace := [], exited := false }

/-- The resources acquired in a trace, in order: those whose creating call
returned `CL_SUCCESS`. -/
def acquired (trace : List Event) : List Resource :=
  trace.filterMap (fun e =>
    match e with
    | .called c code => if code = CL_SUCCESS then c.creates else none
    | .printed_build_log => none)

/-- The resources released in a trace, in order. -/
def released (trace : List Event) : List Resource :=
  trace.filterMap (fun e =>
    match e with
    | .called c _ => c.releases
    | .printed_build_log => none)

/-- The calls made in a trace, in order. -/
def calls (trace : List Event) : List Call :=
  trace.filterMap (fun e =>
    match e with
    | .called c _ => some c
    | .printed_build_log => none)

/-- The code `CL_BUILD_PROGRAM_FAILURE`. -/
def CL_BUILD_PROGRAM_FAILURE : Int := -11

/-- The code `CL_INVALID_PROGRAM_EXECUTABLE`. -/
def CL_INVALID_PROGRAM_EXECUTABLE : Int := -45

/-- The code `CL_INVALID_KERNEL`. -/
def CL_INVALID_KERNEL : Int := -48

/-- A runtime on which the program build fails and, as a consequence, no kernel
can be created from the program nor arguments set on it; every other call
succeeds. -/
def build_fails : Call → Int
  | .clBuildProgram => CL_BUILD_PROGRAM_FAILURE
  | .clCreateKernel => CL_INVALID_PROGRAM_EXECUTABLE
  | .clSetKernelArg _ => CL_INVALID_KERNEL
  | _ => CL_SUCCESS

/-- A runtime on which `clFinish` fails with `CL_OUT_OF_RESOURCES`, every other
call succeeds. -/
def finish_fails : Call → Int
  | .clFinish => -5
  | _ => CL_SUCCESS

/-- An instance of the parameter `checkError`: the program ends on every code
but `CL_SUCCESS`. -/
def exits_on_error (err : Int) : Bool :=
  decide (err ≠ CL_SUCCESS)

/-- The call a statement makes whatever the state, if it makes one. -/
def Stmt.call : Stmt → Option Call
  | .assign c => some c
  | .or_assign c => some c
  | .discard c => some c
  | .checkError => none
  | .print_log_if_failed => none

/-- In this pipeline each call that creates a resource is an assignment that
`checkError` follows directly. -/
def creates_checked : List Stmt → Bool
  | [] => true
  | .assign c :: rest =>
    (c.creates.isNone || rest.head? == some .checkError) && creates_checked rest
  | .or_assign c :: rest => c.creates.isNone && creates_checked rest
  | .discard c :: rest => c.creates.isNone && creates_checked rest
  | .checkError :: rest => creates_checked rest
  | .print_log_if_failed :: rest => creates_checked rest

/-- The resources the statements of a pipeline create, in order. -/
def creates_of (p : List Stmt) : List Resource :=
  p.filterMap (fun s => s.call.bind Call.creates)
/-! ### Facts about the chunk arithmetic -/

theorem length_partition (N P : Int) : (partition N P).length = P.toNat := by
  simp [partition]

theorem getElem?_partition (N P : Int) (i : Nat) (a : ThreadData) :
    (partition N P)[i]? = some a ↔
      i < P.toNat ∧ a = chunk N P (N.tdiv P) (i : Int) := by
  unfold partition
  rw [List.getElem?_map]
  by_cases h : i < P.toNat
  · rw [List.getElem?_range h]
    simp [h, eq_comm]
  · rw [List.getElem?_eq_none (by simpa using h)]
    simp [h]

theorem mem_partition (N P : Int) (a : ThreadData) :
    a ∈ partition N P ↔ ∃ i : Nat, i < P.toNat ∧ a = chunk N P (N.tdiv P) (i : Int) := by
  simp [partition, eq_comm]

/-- For `1 ≤ P ≤ N` the chunk size `c = N / P` is positive and `c * P ≤ N`. -/
theorem chunk_size_facts (N P : Int) (hP : 1 ≤ P) (hPN : P ≤ N) :
    1 ≤ N.tdiv P ∧ N.tdiv P * P ≤ N ∧ N < N.tdiv P * P + P ∧
      N.tdiv P * P + N % P = N := by
  have hN : 0 ≤ N := by omega
  have hP0 : 0 ≤ P := by omega
  rw [Int.tdiv_eq_ediv hN hP0]
  have h1 : N / P * P + N % P = N := Int.ediv_add_emod' N P
  have h2 : 0 ≤ N % P := Int.emod_nonneg N (by omega)
  have h3 : N % P < P := Int.emod_lt_of_pos N (by omega)
  have h4 : 1 ≤ N / P := by
    by_contra hc
    have hc' : N / P ≤ 0 := by omega
    have : N / P * P ≤ 0 := Int.mul_nonpos_of_nonpos_of_nonneg hc' hP0
    omega
  refine ⟨h4, ?_, ?_, h1⟩ <;> omega

/-- The launch loop appends the chunks of workers `i, i + 1, ...` in order. -/
theorem launch_loop_thread_data (data : List Int) (N P c : Int) :
    ∀ (n : Nat) (i : Int) (tds ps : _) (tds' ps' : _),
      launch_loop data N P c n i tds ps = some (tds', ps') →
      tds' = tds ++ (List.range n).map (fun (k : Nat) => chunk N P c (i + (k : Int))) := by
  intro n
  induction n with
  | zero =>
    intro i tds ps tds' ps' h
    simp [launch_loop] at h
    simp [h.1]
  | succ n ih =>
    intro i tds ps tds' ps' h
    unfold launch_loop at h
    split at h
    · dsimp only at h
      split at h
      · exact absurd h (by simp)
      · rename_i ps1 _
        have := ih (i + 1) _ _ _ _ h
        rw [this, List.range_succ_eq_map, List.map_cons, List.map_map]
        simp only [List.append_assoc, List.singleton_append, Nat.cast_zero, add_zero]
        congr 2
        apply List.map_congr_left
        intro k _
        simp only [Function.comp, Nat.cast_succ]
        congr 1
        omega
    · exact absurd h (by simp)

/-- Whenever `run_sums` completes, the chunks it gave to its workers are
`partition array_size num_cores`. -/
theorem run_sums_thread_data (data ps : List Int) (N P : Int) (r : RunResult)
    (h : run_sums data ps N P = some r) : r.thread_data = partition N P := by
  unfold run_sums at h
  split at h
  · exact absurd h (by simp)
  · split at h
    · exact absurd h (by simp)
    · rename_i tds ps1 hl
      split at h
      · exact absurd h (by simp)
      · split at h
        · exact absurd h (by simp)
        · have hr := Option.some.inj h
          rw [← hr]
          have := launch_loop_thread_data data N P _ _ _ _ _ _ _ hl
          simpa [partition] using this


/-! ### Facts about the summation loops -/

/-- The sum of the first `x` entries of `arr`. -/
theorem sum_loop_take (arr : List Int) :
    ∀ (n i : Nat) (acc : Int), i + n ≤ arr.length →
      sum_loop arr n (i : Int) acc =
        some (acc + ((arr.take (i + n)).sum - (arr.take i).sum)) := by
  intro n
  induction n with
  | zero => intro i acc _; simp [sum_loop]
  | succ n ih =>
    intro i acc h
    have hi : i < arr.length := by omega
    have hr : array_read arr (i : Int) = some arr[i] := by
      simp [array_read, List.getElem?_eq_getElem hi]
    unfold sum_loop
    rw [hr]
    have := ih (i + 1) (acc + arr[i]) (by omega)
    simp only [Nat.cast_succ] at this
    dsimp only
    rw [this, List.sum_take_succ arr i hi]
    congr 1
    have e : i + 1 + n = i + (n + 1) := by omega
    rw [e]
    ring

/-- A worker whose chunk lies inside `data` and whose slot exists stores the
sum of its chunk, a difference of two prefix sums of `data`. -/
theorem sum_part_ok (data ps : List Int) (td : ThreadData)
    (hs : 0 ≤ td.start) (hse : td.start ≤ td.end_) (he : td.end_ ≤ (data.length : Int))
    (hi : 0 ≤ td.thread_index) (hi2 : td.thread_index.toNat < ps.length) :
    sum_part data ps td =
      some (ps.set td.thread_index.toNat
        ((data.take td.end_.toNat).sum - (data.take td.start.toNat).sum)) := by
  unfold sum_part
  have h1 : td.start = ((td.start.toNat : Nat) : Int) := by omega
  have h2 : td.start.toNat + (td.end_ - td.start).toNat = td.end_.toNat := by omega
  have h3 := sum_loop_take data (td.end_ - td.start).toNat td.start.toNat 0 (by omega)
  rw [← h1, h2] at h3
  rw [h3]
  simp [array_write, hi, hi2]

/-- The launch loop completes when every chunk lies inside `data` and every
worker index is a slot of `partial_sums`; afterwards slot `k` of each launched
worker holds the sum of chunk `k`, and the other slots are untouched. -/
theorem launch_loop_ok (data : List Int) (N P c : Int) :
    ∀ (n i : Nat) (tds : List ThreadData) (ps : List Int),
      i + n ≤ ps.length → i + n ≤ MAX_THREADS →
      (∀ k : Nat, i ≤ k → k < i + n →
        0 ≤ (chunk N P c k).start ∧ (chunk N P c k).start ≤ (chunk N P c k).end_ ∧
          (chunk N P c k).end_ ≤ (data.length : Int)) →
      ∃ tds' ps', launch_loop data N P c n (i : Int) tds ps = some (tds', ps') ∧
        ps'.length = ps.length ∧
        (∀ k : Nat, i ≤ k → k < i + n → ps'[k]? = some (chunk_sum data (chunk N P c k))) ∧
        (∀ k : Nat, (k < i ∨ i + n ≤ k) → ps'[k]? = ps[k]?) := by
  intro n
  induction n with
  | zero =>
    intro i tds ps _ _ _
    exact ⟨tds, ps, by simp [launch_loop], rfl, fun k h1 h2 => by omega, fun _ _ => rfl⟩
  | succ n ih =>
    intro i tds ps hlen hmax hch
    have hlt : (i : Int) < (MAX_THREADS : Int) := by omega
    obtain ⟨c1, c2, c3⟩ := hch i (le_refl _) (by omega)
    have hidx : (chunk N P c i).thread_index = (i : Int) := rfl
    have hsp := sum_part_ok data ps (chunk N P c i) c1 c2 c3 (by rw [hidx]; omega)
      (by rw [hidx]; simp; omega)
    rw [hidx, Int.toNat_ofNat] at hsp
    obtain ⟨tds', ps', e1, e2, e3, e4⟩ := ih (i + 1) (tds ++ [chunk N P c i])
      (ps.set i (chunk_sum data (chunk N P c i))) (by simp; omega) (by omega)
      (fun k h1 h2 => hch k (by omega) (by omega))
    refine ⟨tds', ps', ?_, ?_, ?_, ?_⟩
    · unfold launch_loop
      rw [if_pos hlt]
      dsimp only
      rw [hsp]
      dsimp only
      rw [← e1]
      simp [chunk_sum]
    · simpa using e2
    · intro k h1 h2
      by_cases hk : k = i
      · subst hk
        rw [e4 k (Or.inl (by omega))]
        simp [List.getElem?_set_self, show k < ps.length by omega]
      · exact e3 k (by omega) (by omega)
    · intro k hk
      rw [e4 k (by omega)]
      exact List.getElem?_set_ne (by omega)

/-- For `1 ≤ P ≤ N` every chunk `k < P` is a range `0 ≤ start ≤ end ≤ N`. -/
theorem chunk_in_range (N P : Int) (hP : 1 ≤ P) (hPN : P ≤ N) (k : Nat) (hk : (k : Int) < P) :
    0 ≤ (chunk N P (N.tdiv P) k).start ∧
      (chunk N P (N.tdiv P) k).start ≤ (chunk N P (N.tdiv P) k).end_ ∧
      (chunk N P (N.tdiv P) k).end_ ≤ N := by
  obtain ⟨h1, h2, -, -⟩ := chunk_size_facts N P hP hPN
  have hk0 : (0 : Int) ≤ k := Int.ofNat_nonneg k
  have hc0 : 0 ≤ N.tdiv P := by omega
  have hkc : (k : Int) * N.tdiv P ≤ (P - 1) * N.tdiv P :=
    Int.mul_le_mul_of_nonneg_right (by omega) hc0
  have hexp : (P - 1) * N.tdiv P = N.tdiv P * P - N.tdiv P := by ring
  simp only [chunk]
  refine ⟨Int.mul_nonneg hk0 hc0, ?_, ?_⟩
  · split
    · omega
    · have : ((k : Int) + 1) * N.tdiv P = (k : Int) * N.tdiv P + N.tdiv P := by ring
      omega
  · split
    · omega
    · have hk1 : ((k : Int) + 1) * N.tdiv P ≤ (P - 1) * N.tdiv P :=
        Int.mul_le_mul_of_nonneg_right (by omega) hc0
      omega

theorem chunk_start_boundary (N P : Int) (k : Nat) (hk : (k : Int) < P) :
    (chunk N P (N.tdiv P) k).start.toNat = boundary N P k := by
  have : (k : Int) ≠ P := by omega
  simp [chunk, boundary, this]

theorem chunk_end_boundary (N P : Int) (k : Nat) :
    (chunk N P (N.tdiv P) k).end_.toNat = boundary N P (k + 1) := by
  simp only [chunk, boundary, Nat.cast_succ]
  by_cases h : (k : Int) = P - 1
  · rw [if_pos h, if_pos (by omega)]
  · rw [if_neg h, if_neg (by omega)]

/-- Adding the slots `0 .. m - 1` in worker order telescopes to a prefix sum
of `data`. -/
theorem partial_sums_telescope (data ps : List Int) (N P : Int)
    (hps : ∀ k : Nat, (k : Int) < P → ps[k]? = some (chunk_sum data (chunk N P (N.tdiv P) k))) :
    ∀ m : Nat, (m : Int) ≤ P → 1 ≤ P →
      (ps.take m).sum = (data.take (boundary N P m)).sum := by
  intro m
  induction m with
  | zero =>
    intro _ hP
    have : ¬ ((0 : Int) = P) := by omega
    simp [boundary, this]
  | succ m ih =>
    intro hm hP
    have hmP : (m : Int) < P := by push_cast at hm; omega
    have hget := hps m hmP
    have hlt : m < ps.length := by
      by_contra hc
      rw [List.getElem?_eq_none (by omega)] at hget
      exact absurd hget (by simp)
    rw [List.getElem?_eq_getElem hlt] at hget
    rw [List.sum_take_succ ps m hlt, ih (by omega) hP, Option.some.inj hget, chunk_sum,
      chunk_start_boundary N P m hmP, chunk_end_boundary N P m]
    ring

/-- When every chunk lies inside `data` and `1 ≤ P ≤ MAX_THREADS`,
`run_sums` completes; both totals are the sum of `data`. -/
theorem run_sums_of_ranges (data ps : List Int) (N P : Int) (hN : N = (data.length : Int))
    (hP : 1 ≤ P) (hPM : P ≤ (MAX_THREADS : Int)) (hlen : ps.length = MAX_THREADS)
    (hch : ∀ k : Nat, (k : Int) < P →
      0 ≤ (chunk N P (N.tdiv P) k).start ∧
        (chunk N P (N.tdiv P) k).start ≤ (chunk N P (N.tdiv P) k).end_ ∧
        (chunk N P (N.tdiv P) k).end_ ≤ N) :
    ∃ r, run_sums data ps N P = some r ∧ r.thread_data = partition N P ∧
      r.total_sum = data.sum ∧ r.single_sum = data.sum ∧
      r.partial_sums.length = MAX_THREADS ∧
      (∀ k : Nat, (k : Int) < P →
        r.partial_sums[k]? = some (chunk_sum data (chunk N P (N.tdiv P) k))) ∧
      (∀ k : Nat, P ≤ (k : Int) → r.partial_sums[k]? = ps[k]?) := by
  obtain ⟨tds', ps', e1, e2, e3, e4⟩ := launch_loop_ok data N P (N.tdiv P) P.toNat 0 [] ps
    (by omega) (by omega)
    (fun k _ hk => by
      have := hch k (by omega)
      omega)
  have hps : ∀ k : Nat, (k : Int) < P →
      ps'[k]? = some (chunk_sum data (chunk N P (N.tdiv P) k)) :=
    fun k hk => e3 k (Nat.zero_le _) (by omega)
  have htot := sum_loop_take ps' P.toNat 0 0 (by omega)
  have hsing := sum_loop_take data N.toNat 0 0 (by omega)
  have htel := partial_sums_telescope data ps' N P hps P.toNat (by omega) hP
  have hb : boundary N P P.toNat = data.length := by
    have : ((P.toNat : Nat) : Int) = P := by omega
    simp [boundary, this, hN]
  have hNn : N.toNat = data.length := by omega
  simp only [Nat.cast_zero, zero_add, List.take_zero, List.sum_nil, sub_zero] at htot hsing
  rw [htel, hb, List.take_length] at htot
  rw [hNn, List.take_length] at hsing
  refine ⟨⟨tds', ps', data.sum, data.sum⟩, ?_, ?_, rfl, rfl, by simpa [hlen] using e2, hps,
    fun k hk => e4 k (Or.inr (by omega))⟩
  · unfold run_sums
    rw [if_neg (by omega)]
    simp only [Nat.cast_zero] at e1
    rw [e1]
    dsimp only
    rw [htot]
    dsimp only
    rw [hNn] at *
    rw [hsing]
  · have := launch_loop_thread_data data N P _ _ _ _ _ _ _ e1
    simpa [partition] using this

/-- The single-threaded loop adds left to right; `List.sum` is the same
number. -/
theorem foldl_add_eq_sum (l : List Int) : l.foldl (fun s x => s + x) 0 = l.sum := by
  have h : ∀ (l : List Int) (a : Int), l.foldl (fun s x => s + x) a = a + l.sum := by
    intro l
    induction l with
    | nil => intro a; simp
    | cons x xs ih => intro a; rw [List.foldl_cons, ih, List.sum_cons]; ring
  simpa using h l 0

/-- More workers than elements: the chunk size is `0`. -/
theorem tdiv_eq_zero_of_lt (N P : Int) (hN : 0 ≤ N) (hNP : N < P) : N.tdiv P = 0 := by
  rw [Int.tdiv_eq_ediv hN (by omega)]
  exact Int.ediv_eq_zero_of_lt hN hNP

/-- The sums stay inside `long long`: over entries of absolute value at most
`B`, a sum of the entries from index `a` up to index `b` is at most
`(b - a) * B` in absolute value.  With `int` entries (`B = 2^31`) and fewer
than `2^31` of them, every accumulator of `sum_part` and `run_test` stays
below `2^62`. -/
theorem window_sum_bound (l : List Int) (B : Int) (hB : ∀ x ∈ l, -B ≤ x ∧ x ≤ B) (a : Nat) :
    ∀ n : Nat, a + n ≤ l.length →
      -((n : Int) * B) ≤ (l.take (a + n)).sum - (l.take a).sum ∧
        (l.take (a + n)).sum - (l.take a).sum ≤ (n : Int) * B := by
  intro n
  induction n with
  | zero => intro _; simp
  | succ n ih =>
    intro h
    have hlt : a + n < l.length := by omega
    obtain ⟨h1, h2⟩ := ih (by omega)
    obtain ⟨h3, h4⟩ := hB l[a + n] (List.getElem_mem hlt)
    have e : a + (n + 1) = a + n + 1 := by omega
    rw [e, List.sum_take_succ l (a + n) hlt]
    have hc : ((n + 1 : Nat) : Int) * B = (n : Int) * B + B := by push_cast; ring
    rw [hc]
    constructor <;> omega

/-! ### The work partition of `run_test` -/

/-- Chunks of two workers `i < j` do not meet: chunk `i` ends at or before the
start of chunk `j`. -/
theorem chunk_end_le_start (N P : Int) (hP : 1 ≤ P) (hPN : P ≤ N) (i j : Nat)
    (hij : i < j) (hj : (j : Int) < P) :
    (chunk N P (N.tdiv P) i).end_ ≤ (chunk N P (N.tdiv P) j).start := by
  obtain ⟨h1, -, -, -⟩ := chunk_size_facts N P hP hPN
  have hne : ¬ ((i : Int) = P - 1) := by omega
  simp only [chunk, if_neg hne]
  exact Int.mul_le_mul_of_nonneg_right (by omega) (by omega)

/-- On its own all-ones array `run_test` completes with both totals `N`. -/
theorem run_test_ones (ps : List Int) (N P : Int) (hP : 1 ≤ P) (hPN : P ≤ N)
    (hPM : P ≤ (MAX_THREADS : Int)) (hlen : ps.length = MAX_THREADS) :
    ∃ r, run_test ps N P = some r ∧ r.total_sum = N ∧ r.single_sum = N := by
  have hlenN : N = ((List.replicate N.toNat (1 : Int)).length : Int) := by
    rw [List.length_replicate]; omega
  obtain ⟨r, h1, -, h3, h4, -, -, -⟩ := run_sums_of_ranges
    (List.replicate N.toNat 1) ps N P hlenN hP hPM hlen
    (fun k hk => chunk_in_range N P hP hPN k hk)
  have hs : (List.replicate N.toNat (1 : Int)).sum = N := by
    rw [List.sum_replicate, nsmul_eq_mul, mul_one]; omega
  exact ⟨r, h1, by rw [h3, hs], by rw [h4, hs]⟩

/-- C3: for every integer array of length `N` and every worker count
`1 ≤ P ≤ min(N, 8)`, the run completes, worker `k` leaves the sum of its chunk
in `partial_sums[k]`, and the total of the partial sums taken in worker order
equals the single-threaded left-to-right sum of the whole array; for the
all-ones array of `run_test` with `N = 1000000` and `P = 8` the total is
`1000000`. -/
theorem run_test_total_eq_sequential :
    (∀ (data ps : List Int) (N P : Int), N = (data.length : Int) → 1 ≤ P → P ≤ N →
      P ≤ 8 → ps.length = MAX_THREADS →
      ∃ r, run_sums data ps N P = some r ∧
        (∀ k : Nat, (k : Int) < P →
          r.partial_sums[k]? = some (chunk_sum data (chunk N P (N.tdiv P) k))) ∧
        r.total_sum = r.single_sum ∧
        r.single_sum = data.foldl (fun s x => s + x) 0) ∧
    (∀ ps : List Int, ps.length = MAX_THREADS →
      ∃ r, run_test ps 1000000 8 = some r ∧ r.total_sum = 1000000 ∧
        r.single_sum = 1000000) := by
  constructor
  · intro data ps N P hN hP hPN hP8 hlen
    obtain ⟨r, h1, -, h3, h4, -, h6, -⟩ := run_sums_of_ranges data ps N P hN hP
      (by simpa [MAX_THREADS] using hP8) hlen
      (fun k hk => chunk_in_range N P hP hPN k hk)
    exact ⟨r, h1, h6, by rw [h3, h4], by rw [h4, foldl_add_eq_sum]⟩
  · intro ps hlen
    obtain ⟨r, h1, h2, h3⟩ := run_test_ones ps 1000000 8 (by norm_num) (by norm_num)
      (by norm_num [MAX_THREADS]) hlen
    exact ⟨r, h1, h2, h3⟩

/-- C3 on the array `[5, -2, 7, 1, 4]` with two workers and stale slots. -/
theorem run_test_total_eq_sequential_witness :
    ∃ r, run_sums [5, -2, 7, 1, 4] [9, 9, 9, 9, 9, 9, 9, 9] 5 2 = some r ∧
      (∀ k : Nat, (k : Int) < 2 →
        r.partial_sums[k]? = some (chunk_sum [5, -2, 7, 1, 4]
          (chunk 5 2 (Int.tdiv 5 2) k))) ∧
      r.total_sum = r.single_sum ∧
      r.single_sum = [5, -2, 7, 1, 4].foldl (fun s x => s + x) 0 :=
  run_test_total_eq_sequential.1 [5, -2, 7, 1, 4] [9, 9, 9, 9, 9, 9, 9, 9] 5 2
    (by decide) (by decide) (by decide) (by decide) (by decide)

/-- C2, as stated, fails: with `N = 3` elements and `P = 5 > N` workers
`run_test` reports no error; it makes five chunks, runs five workers and
prints the total `3`.  With `P = -2` it makes no chunk and prints the total
`0`, again without an error. -/
theorem run_test_accepts_invalid_partition :
    run_test [0, 0, 0, 0, 0, 0, 0, 0] 3 5 =
      some ⟨[⟨0, 0, 0⟩, ⟨0, 0, 1⟩, ⟨0, 0, 2⟩, ⟨0, 0, 3⟩, ⟨0, 3, 4⟩],
        [0, 0, 0, 0, 3, 0, 0, 0], 3, 3⟩ ∧
    run_test [0, 0, 0, 0, 0, 0, 0, 0] 3 (-2) =
      some ⟨[], [0, 0, 0, 0, 0, 0, 0, 0], 0, 3⟩ := by
  decide

/-- C2, amended: `run_test` has no partition check.  For `1 ≤ N < P ≤
MAX_THREADS` it completes with `P` chunks, the chunks of workers `0 .. P-2`
being the empty range `[0, 0)` and the last one `[0, N)`, and both totals are
`N`.  For `P < 0` it completes with no chunk and no worker, leaves
`partial_sums` as it was, and its multithreaded total is `0`. -/
theorem run_test_without_partition_check (ps : List Int) (N P : Int) (hN : 1 ≤ N)
    (hlen : ps.length = MAX_THREADS) :
    (N < P → P ≤ (MAX_THREADS : Int) →
      ∃ r, run_test ps N P = some r ∧ r.thread_data.length = P.toNat ∧
        (∀ (i : Nat) (a : ThreadData), (i : Int) < P - 1 → r.thread_data[i]? = some a →
          a.start = 0 ∧ a.end_ = 0) ∧
        r.thread_data[(P - 1).toNat]? = some ⟨0, N, P - 1⟩ ∧
        r.total_sum = N ∧ r.single_sum = N) ∧
    (P < 0 → run_test ps N P = some ⟨[], ps, 0, N⟩) := by
  have hlenN : N = ((List.replicate N.toNat (1 : Int)).length : Int) := by
    rw [List.length_replicate]; omega
  have hs : (List.replicate N.toNat (1 : Int)).sum = N := by
    rw [List.sum_replicate, nsmul_eq_mul, mul_one]; omega
  constructor
  · intro hNP hPM
    have hc : N.tdiv P = 0 := tdiv_eq_zero_of_lt N P (by omega) hNP
    obtain ⟨r, h1, h2, h3, h4, -, -, -⟩ := run_sums_of_ranges
      (List.replicate N.toNat 1) ps N P hlenN (by omega) hPM hlen
      (fun k hk => by
        rw [hc]
        simp only [chunk, mul_zero]
        split <;> omega)
    refine ⟨r, h1, by rw [h2, length_partition], ?_, ?_, by rw [h3, hs], by rw [h4, hs]⟩
    · intro i a hi ha
      rw [h2] at ha
      obtain ⟨_, rfl⟩ := (getElem?_partition N P i a).1 ha
      have hne : ¬ ((i : Int) = P - 1) := by omega
      simp [chunk, hc, hne]
    · rw [h2, getElem?_partition]
      have e : (((P - 1).toNat : Nat) : Int) = P - 1 := by omega
      refine ⟨by omega, ?_⟩
      rw [e, hc]
      simp [chunk]
  · intro hP
    have hsing := sum_loop_take (List.replicate N.toNat 1) N.toNat 0 0
      (by rw [List.length_replicate]; omega)
    have hNn : 0 + N.toNat = (List.replicate N.toNat (1 : Int)).length := by
      rw [List.length_replicate]; omega
    rw [hNn, List.take_length, hs] at hsing
    simp only [Nat.cast_zero, zero_add, List.take_zero, List.sum_nil, sub_zero] at hsing
    have hP0 : P.toNat = 0 := by omega
    unfold run_test run_sums
    rw [if_neg (by omega), hP0]
    simp only [launch_loop, sum_loop]
    rw [hsing]

/-- C2 amended, at `N = 3`: `P = 5` workers and `P = -2` workers. -/
theorem run_test_without_partition_check_witness :
    (∃ r, run_test [0, 0, 0, 0, 0, 0, 0, 0] 3 5 = some r ∧ r.thread_data.length = 5 ∧
      (∀ (i : Nat) (a : ThreadData), (i : Int) < 5 - 1 → r.thread_data[i]? = some a →
        a.start = 0 ∧ a.end_ = 0) ∧
      r.thread_data[4]? = some ⟨0, 3, 5 - 1⟩ ∧
      r.total_sum = 3 ∧ r.single_sum = 3) ∧
    run_test [1, 2, 3, 4, 5, 6, 7, 8] 3 (-2) = some ⟨[], [1, 2, 3, 4, 5, 6, 7, 8], 0, 3⟩ :=
  ⟨(run_test_without_partition_check [0, 0, 0, 0, 0, 0, 0, 0] 3 5 (by decide) (by decide)).1
      (by decide) (by decide),
    (run_test_without_partition_check [1, 2, 3, 4, 5, 6, 7, 8] 3 (-2) (by decide)
      (by decide)).2 (by decide)⟩

/-! ### `matrix_multiply` -/

/-- The `k` loop accumulates in ascending `k`, as long as the counter stays
an `int`. -/
theorem mm_k_loop_eq {F : Type} (ops : FloatOps F) (A B : Nat → Nat → F) (i j : Nat) :
    ∀ (n k : Nat) (sum : F), k + n ≤ INT_MAX →
      mm_k_loop ops A B i j n k sum =
        some ((List.range' k n).foldl (fun s k => ops.add s (ops.mul (A i k) (B k j))) sum) := by
  intro n
  induction n with
  | zero => intro k sum _; rfl
  | succ n ih =>
    intro k sum h
    rw [mm_k_loop, if_pos (by omega), ih _ _ (by omega), List.range'_succ, List.foldl_cons]

theorem mm_k_loop_ascending {F : Type} (ops : FloatOps F) (A B : Nat → Nat → F)
    (i j p : Nat) (hp : p ≤ INT_MAX) :
    mm_k_loop ops A B i j p 0 ops.zero =
      some (ascending_sum ops p (fun k => ops.mul (A i k) (B k j))) := by
  rw [mm_k_loop_eq ops A B i j p 0 ops.zero (by omega), ascending_sum, List.range_eq_range']

/-- The `j` loop fills `C[i][j .. j+n)` and leaves everything else alone. -/
theorem mm_j_loop_spec {F : Type} (ops : FloatOps F) (p i : Nat) (hp : p ≤ INT_MAX) :
    ∀ (n j : Nat) (s : Matrices F), j + n ≤ INT_MAX →
      ∃ s', mm_j_loop ops p i n j s = some s' ∧
        s'.mat_A = s.mat_A ∧ s'.mat_B = s.mat_B ∧
        ∀ i' j', s'.mat_C i' j' =
          if i' = i ∧ j ≤ j' ∧ j' < j + n then
            ascending_sum ops p (fun k => ops.mul (s.mat_A i' k) (s.mat_B k j'))
          else s.mat_C i' j' := by
  intro n
  induction n with
  | zero =>
    intro j s _
    refine ⟨s, rfl, rfl, rfl, fun i' j' => ?_⟩
    have : ¬ (i' = i ∧ j ≤ j' ∧ j' < j + 0) := by omega
    rw [if_neg this]
  | succ n ih =>
    intro j s h
    obtain ⟨s', hs', hA, hB, hC⟩ := ih (j + 1)
      { s with mat_C := (store2 s.mat_C i j
          (ascending_sum ops p (fun k => ops.mul (s.mat_A i k) (s.mat_B k j)))) } (by omega)
    refine ⟨s', ?_, hA, hB, fun i' j' => ?_⟩
    · rw [mm_j_loop, mm_k_loop_ascending ops _ _ i j p hp, Option.some_bind,
        if_pos (by omega)]
      exact hs'
    · rw [hC i' j']
      by_cases h1 : i' = i ∧ j + 1 ≤ j' ∧ j' < j + 1 + n
      · rw [if_pos h1, if_pos (by omega)]
      · rw [if_neg h1]
        by_cases h2 : i' = i ∧ j' = j
        · obtain ⟨rfl, rfl⟩ := h2
          rw [if_pos (by omega)]
          simp [store2]
        · rw [if_neg (by omega)]
          simp [store2, h2]

/-- The `i` loop fills the rows `i .. i+n-1`, columns `0 .. n_cols-1`. -/
theorem mm_i_loop_spec {F : Type} (ops : FloatOps F) (n_cols p : Nat)
    (hn : n_cols ≤ INT_MAX) (hp : p ≤ INT_MAX) :
    ∀ (n i : Nat) (s : Matrices F), i + n ≤ INT_MAX →
      ∃ s', mm_i_loop ops n_cols p n i s = some s' ∧
        s'.mat_A = s.mat_A ∧ s'.mat_B = s.mat_B ∧
        ∀ i' j', s'.mat_C i' j' =
          if (i ≤ i' ∧ i' < i + n) ∧ j' < n_cols then
            ascending_sum ops p (fun k => ops.mul (s.mat_A i' k) (s.mat_B k j'))
          else s.mat_C i' j' := by
  intro n
  induction n with
  | zero =>
    intro i s _
    refine ⟨s, rfl, rfl, rfl, fun i' j' => ?_⟩
    have : ¬ ((i ≤ i' ∧ i' < i + 0) ∧ j' < n_cols) := by omega
    rw [if_neg this]
  | succ n ih =>
    intro i s h
    obtain ⟨s1, hs1, hA1, hB1, hC1⟩ := mm_j_loop_spec ops p i hp n_cols 0 s (by omega)
    obtain ⟨s', hs', hA, hB, hC⟩ := ih (i + 1) s1 (by omega)
    refine ⟨s', ?_, by rw [hA, hA1], by rw [hB, hB1], fun i' j' => ?_⟩
    · rw [mm_i_loop, hs1, Option.some_bind, if_pos (by omega)]
      exact hs'
    · rw [hC i' j', hA1, hB1, hC1 i' j']
      by_cases h1 : (i + 1 ≤ i' ∧ i' < i + 1 + n) ∧ j' < n_cols
      · rw [if_pos h1, if_pos (by omega)]
      · rw [if_neg h1]
        by_cases h2 : i' = i ∧ 0 ≤ j' ∧ j' < 0 + n_cols
        · rw [if_pos h2, if_pos (by omega)]
        · rw [if_neg h2, if_neg (by omega)]

/-- A loop over `i` that has to pass `INT_MAX` has no result. -/
theorem mm_i_loop_overflow {F : Type} (ops : FloatOps F) (n_cols p : Nat) :
    ∀ (n i : Nat) (s : Matrices F), i ≤ INT_MAX → INT_MAX < i + n →
      mm_i_loop ops n_cols p n i s = none := by
  intro n
  induction n with
  | zero => intro i s h1 h2; omega
  | succ n ih =>
    intro i s h1 h2
    rw [mm_i_loop]
    cases mm_j_loop ops p i n_cols 0 s with
    | none => rfl
    | some s1 =>
      rw [Option.some_bind]
      by_cases hi : i < INT_MAX
      · rw [if_pos hi]
        exact ih (i + 1) s1 (by omega) (by omega)
      · rw [if_neg hi]

/-- With `m` above `INT_MAX` no run of `matrix_multiply` has a result. -/
theorem matrix_multiply_overflow {F : Type} (ops : FloatOps F) (num_threads : Nat)
    (s : Matrices F) (m n p : Nat) (hT : 1 ≤ num_threads) (hm : INT_MAX < m) :
    matrix_multiply ops num_threads s m n p = none := by
  have hnone : ∀ T : Nat,
      (fun r => Option.bind r (mm_i_loop ops n p m 0))^[T] none = none := by
    intro T
    induction T with
    | zero => rfl
    | succ T ih => rw [Function.iterate_succ_apply]; exact ih
  obtain ⟨T, rfl⟩ : ∃ T, num_threads = T + 1 := ⟨num_threads - 1, by omega⟩
  unfold matrix_multiply
  rw [Function.iterate_succ_apply]
  have h1 : Option.bind (some s) (mm_i_loop ops n p m 0) = none := by
    rw [Option.some_bind]
    exact mm_i_loop_overflow ops n p m 0 s (Nat.zero_le _) (by omega)
  rw [h1]
  exact hnone T

/-- C4, as stated for every `m`, fails from `m = 2^31` on, which the type
`unsigned int` of `m` admits: the `int` counter `i` cannot reach `m`, its
increment at `INT_MAX` overflows, and `matrix_multiply` has no defined
result (here `n = p = 1`, a team of one thread, all matrices zero). -/
theorem matrix_multiply_int_counter_overflows :
    matrix_multiply exact_ops 1 ⟨fun _ _ => 0, fun _ _ => 0, fun _ _ => 0⟩
      2147483648 1 1 = none ∧
    INT_MAX < 2147483648 ∧ 2147483648 < 2 ^ 32 :=
  ⟨matrix_multiply_overflow exact_ops 1 ⟨fun _ _ => 0, fun _ _ => 0, fun _ _ => 0⟩
    2147483648 1 1 (Nat.le_refl 1) (Nat.lt_succ_self 2147483647), by decide, by decide⟩

/-- C4, amended: for `m`, `n`, `p` up to `INT_MAX = 2^31 - 1`,
`matrix_multiply(A, B, C, m, n, p)` returns, and after it every `C[i][j]` with
`i < m` and `j < n` is the sum over `k = 0 .. p-1` of `A[i][k] * B[k][j]`
accumulated from `0` in ascending `k`, and `A` and `B` are unchanged (as is
the rest of `C`), whatever the size of the thread team. -/
theorem matrix_multiply_spec {F : Type} (ops : FloatOps F) (num_threads : Nat)
    (s : Matrices F) (m n p : Nat) (hT : 1 ≤ num_threads)
    (hm : m ≤ INT_MAX) (hn : n ≤ INT_MAX) (hp : p ≤ INT_MAX) :
    ∃ s', matrix_multiply ops num_threads s m n p = some s' ∧
      (∀ i j, i < m → j < n →
        s'.mat_C i j = ascending_sum ops p (fun k => ops.mul (s.mat_A i k) (s.mat_B k j))) ∧
      s'.mat_A = s.mat_A ∧ s'.mat_B = s.mat_B ∧
      (∀ i j, ¬ (i < m ∧ j < n) → s'.mat_C i j = s.mat_C i j) := by
  have key : ∀ T : Nat,
      ∃ s', (fun r => Option.bind r (mm_i_loop ops n p m 0))^[T] (some s) = some s' ∧
        s'.mat_A = s.mat_A ∧ s'.mat_B = s.mat_B ∧
        ∀ i j, s'.mat_C i j =
          if 1 ≤ T ∧ i < m ∧ j < n then
            ascending_sum ops p (fun k => ops.mul (s.mat_A i k) (s.mat_B k j))
          else s.mat_C i j := by
    intro T
    induction T with
    | zero => exact ⟨s, rfl, rfl, rfl, fun i j => by simp⟩
    | succ T ih =>
      obtain ⟨s1, hs1, hA, hB, hC⟩ := ih
      obtain ⟨s', hs', hA1, hB1, hC1⟩ := mm_i_loop_spec ops n p hn hp m 0 s1 (by omega)
      refine ⟨s', ?_, by rw [hA1, hA], by rw [hB1, hB], fun i j => ?_⟩
      · rw [Function.iterate_succ_apply', hs1, Option.some_bind]
        exact hs'
      · rw [hC1 i j, hA, hB, hC i j]
        by_cases h : i < m ∧ j < n
        · rw [if_pos (by omega), if_pos (by omega)]
        · rw [if_neg (by omega), if_neg (by omega), if_neg (by omega)]
  obtain ⟨s', hs', hA, hB, hC⟩ := key num_threads
  refine ⟨s', hs', fun i j hi hj => ?_, hA, hB, fun i j h => ?_⟩
  · rw [hC i j, if_pos ⟨hT, hi, hj⟩]
  · rw [hC i j, if_neg (by omega)]

/-- C4 on the 2-by-2 matrices `A[i][k] = i + k`, `B[k][j] = k * j` with a team
of three threads. -/
theorem matrix_multiply_spec_witness :
    ∃ s', matrix_multiply exact_ops 3
        ⟨fun i k => (i : ℚ) + k, fun k j => (k : ℚ) * j, fun _ _ => 7⟩ 2 2 2 = some s' ∧
      (∀ i j, i < 2 → j < 2 →
        s'.mat_C i j = ascending_sum exact_ops 2
          (fun k => exact_ops.mul ((i : ℚ) + k) ((k : ℚ) * j))) ∧
      s'.mat_C 1 1 = 2 ∧ s'.mat_C 2 0 = 7 := by
  obtain ⟨s', hs', hC, -, -, hrest⟩ := matrix_multiply_spec exact_ops 3
    ⟨fun i k => (i : ℚ) + k, fun k j => (k : ℚ) * j, fun _ _ => 7⟩ 2 2 2
    (by decide) (by decide) (by decide) (by decide)
  refine ⟨s', hs', hC, ?_, ?_⟩
  · rw [hC 1 1 (by decide) (by decide)]
    simp [ascending_sum, exact_ops, List.range_succ]
    norm_num
  · rw [hrest 2 0 (by decide)]

/-! ### The kernel `matmul` and the check of matmul_gpu.c -/

/-- Row-major indices of an `S` by `S` matrix stay below `S * S`. -/
theorem row_major_lt (S i j : Nat) (hi : i < S) (hj : j < S) : S * i + j < S * S := by
  have h : S * (i + 1) ≤ S * S := Nat.mul_le_mul_left S hi
  rw [Nat.mul_succ] at h
  omega

/-- Row-major indexing is one-to-one on the `S` by `S` index space. -/
theorem row_major_inj (S i j i' j' : Nat) (hj : j < S) (hj' : j' < S)
    (h : S * i + j = S * i' + j') : i = i' ∧ j = j' := by
  have hS : 0 < S := by omega
  have e1 : (S * i + j) / S = i := by
    rw [Nat.mul_add_div hS, Nat.div_eq_of_lt hj, Nat.add_zero]
  have e2 : (S * i' + j') / S = i' := by
    rw [Nat.mul_add_div hS, Nat.div_eq_of_lt hj', Nat.add_zero]
  have hi : i = i' := by rw [← e1, ← e2, h]
  subst hi
  exact ⟨rfl, by omega⟩

/-- With `M = N = K = S` the kernel's accumulation for the work item `(i, j)`
is the host's accumulation of `expected`, term by term and in the same order. -/
theorem matmul_k_loop_eq_expected {F : Type} (ops : FloatOps F) (S : Nat) (A B : Nat → F)
    (i j : Nat) (hS : S * S < 2 ^ 31) (hi : i < S) (hj : j < S) :
    ∀ (n k : Nat) (acc : F), k + n ≤ S →
      matmul_k_loop ops S S A B i j n k acc = expected_loop ops S A B i j n k acc := by
  intro n
  induction n with
  | zero => intro k acc _; rfl
  | succ n ih =>
    intro k acc hk
    have h1 : S * i + k < S * S := row_major_lt S i k hi (by omega)
    have h2 : S * k + j < S * S := row_major_lt S k j (by omega) hj
    have e1 : (i * S + k) % 2 ^ 32 = S * i + k := by
      rw [Nat.mul_comm i S]; exact Nat.mod_eq_of_lt (by omega)
    have e2 : (S * k + j) % 2 ^ 32 = S * k + j := Nat.mod_eq_of_lt (by omega)
    rw [matmul_k_loop, expected_loop, e1, e2]
    exact ih (k + 1) _ (by omega)

/-- The value the host check computes as `expected` for the element `(i, j)`. -/
theorem matmul_ndrange_spec {F : Type} (ops : FloatOps F) (S : Nat) (A B : Nat → F)
    (hS : S * S < 2 ^ 31) :
    ∀ (schedule : List (Nat × Nat)) (C : DevBuf F),
      (∀ w ∈ schedule, w.1 < S ∧ w.2 < S) →
      ∀ i j, i < S → j < S →
        (matmul_ndrange ops S S S A B C schedule).mem (S * i + j) =
          if (i, j) ∈ schedule then expected_loop ops S A B i j S 0 ops.zero
          else C.mem (S * i + j) := by
  intro schedule
  induction schedule with
  | nil => intro C _ i j _ _; simp [matmul_ndrange]
  | cons w rest ih =>
    intro C hw i j hi hj
    have hfold : matmul_ndrange ops S S S A B C (w :: rest) =
        matmul_ndrange ops S S S A B (matmul ops S S S A B C w.1 w.2) rest := rfl
    obtain ⟨hw1, hw2⟩ := hw w (List.mem_cons_self _ _)
    rw [hfold, ih _ (fun w' h' => hw w' (List.mem_cons_of_mem _ h')) i j hi hj]
    have hidx : (w.1 * S + w.2) % 2 ^ 32 = S * w.1 + w.2 := by
      have := row_major_lt S w.1 w.2 hw1 hw2
      rw [Nat.mul_comm w.1 S]; exact Nat.mod_eq_of_lt (by omega)
    by_cases hr : (i, j) ∈ rest
    · rw [if_pos hr, if_pos (List.mem_cons_of_mem _ hr)]
    · rw [if_neg hr]
      by_cases hwij : w = (i, j)
      · subst hwij
        rw [if_pos (List.mem_cons_self _ _)]
        simp only [matmul, DevBuf.store, store, hidx, if_true]
        exact matmul_k_loop_eq_expected ops S A B i j hS hi hj S 0 ops.zero (by omega)
      · have hne : ¬ ((i, j) ∈ w :: rest) := by
          simp only [List.mem_cons, not_or]
          exact ⟨fun h => hwij h.symm, hr⟩
        have hidx_ne : S * i + j ≠ S * w.1 + w.2 := by
          intro h
          obtain ⟨h1, h2⟩ := row_major_inj S i j w.1 w.2 hj hw2 h
          exact hwij (by rw [h1, h2])
        rw [if_neg hne]
        simp only [matmul, DevBuf.store, store, hidx, if_neg hidx_ne]

/-- The `j` loop of the check counts the accepted elements of row `i`. -/
theorem check_j_loop_eq {F : Type} (ops : FloatOps F) (SIZE : Nat) (h_a h_b h_c : Nat → F)
    (i : Nat) :
    ∀ (n j correct : Nat),
      check_j_loop ops SIZE h_a h_b h_c i n j correct =
        correct + (List.range' j n).countP (fun j =>
          within_tol ops (h_c (SIZE * i + j))
            (expected_loop ops SIZE h_a h_b i j SIZE 0 ops.zero)) := by
  intro n
  induction n with
  | zero => intro j correct; simp [check_j_loop]
  | succ n ih =>
    intro j correct
    rw [check_j_loop, ih, List.range'_succ, List.countP_cons]
    split <;> omega

/-- The `i` loop of the check adds up the counts of the rows. -/
theorem check_i_loop_eq {F : Type} (ops : FloatOps F) (SIZE : Nat) (h_a h_b h_c : Nat → F) :
    ∀ (n i correct : Nat),
      check_i_loop ops SIZE h_a h_b h_c n i correct =
        correct + ((List.range' i n).map (fun i =>
          (List.range' 0 SIZE).countP (fun j =>
            within_tol ops (h_c (SIZE * i + j))
              (expected_loop ops SIZE h_a h_b i j SIZE 0 ops.zero)))).sum := by
  intro n
  induction n with
  | zero => intro i correct; simp [check_i_loop]
  | succ n ih =>
    intro i correct
    rw [check_i_loop, ih, check_j_loop_eq, List.range'_succ, List.map_cons, List.sum_cons]
    omega

/-- C6: for a square size `S` and flat row-major inputs, the value the kernel
`matmul` leaves in `C[row * N + col]` for each work item `(row, col)` of the
`S` by `S` index space is the reference value the host check computes (the
sum over `k` of `h_a[S*i + k] * h_b[S*k + j]`), so every element passes the
tolerance test and the check reports `correct = S * S`.  `S * S` fits the
32-bit indices, and the test accepts a reference value compared with itself. -/
theorem matmul_gpu_all_correct {F : Type} (ops : FloatOps F) (S : Nat)
    (h_a h_b h_c : Nat → F) (schedule : List (Nat × Nat)) (hS : S * S < 2 ^ 31)
    (hs : schedule.Perm (List.product (List.range S) (List.range S)))
    (hself : ∀ i j, i < S → j < S →
      within_tol ops (expected_loop ops S h_a h_b i j S 0 ops.zero)
        (expected_loop ops S h_a h_b i j S 0 ops.zero) = true) :
    (∀ i j, i < S → j < S →
      (matmul_ndrange ops S S S h_a h_b ⟨h_c, []⟩ schedule).mem (S * i + j) =
        expected_loop ops S h_a h_b i j S 0 ops.zero) ∧
    (∀ i j, i < S → j < S →
      within_tol ops ((matmul_ndrange ops S S S h_a h_b ⟨h_c, []⟩ schedule).mem (S * i + j))
        (expected_loop ops S h_a h_b i j S 0 ops.zero) = true) ∧
    matmul_gpu_run ops S h_a h_b h_c schedule = S * S := by
  have hmem : ∀ i j, (i, j) ∈ schedule ↔ i < S ∧ j < S := fun i j => by
    rw [hs.mem_iff, List.pair_mem_product, List.mem_range, List.mem_range]
  have hval : ∀ i j, i < S → j < S →
      (matmul_ndrange ops S S S h_a h_b ⟨h_c, []⟩ schedule).mem (S * i + j) =
        expected_loop ops S h_a h_b i j S 0 ops.zero := fun i j hi hj => by
    rw [matmul_ndrange_spec ops S h_a h_b hS schedule ⟨h_c, []⟩
      (fun w hw => (hmem w.1 w.2).1 hw) i j hi hj, if_pos ((hmem i j).2 ⟨hi, hj⟩)]
  have hacc : ∀ i j, i < S → j < S →
      within_tol ops ((matmul_ndrange ops S S S h_a h_b ⟨h_c, []⟩ schedule).mem (S * i + j))
        (expected_loop ops S h_a h_b i j S 0 ops.zero) = true := fun i j hi hj => by
    rw [hval i j hi hj]; exact hself i j hi hj
  refine ⟨hval, hacc, ?_⟩
  unfold matmul_gpu_run matmul_check
  rw [check_i_loop_eq, Nat.zero_add]
  have hrow : ∀ i ∈ List.range' 0 S,
      (List.range' 0 S).countP (fun j =>
        within_tol ops ((matmul_ndrange ops S S S h_a h_b ⟨h_c, []⟩ schedule).mem (S * i + j))
          (expected_loop ops S h_a h_b i j S 0 ops.zero)) = S := by
    intro i hi
    have hiS : i < S := by rw [List.mem_range'_1] at hi; omega
    have hall : ∀ j ∈ List.range' 0 S,
        within_tol ops
          ((matmul_ndrange ops S S S h_a h_b ⟨h_c, []⟩ schedule).mem (S * i + j))
          (expected_loop ops S h_a h_b i j S 0 ops.zero) = true := by
      intro j hj
      exact hacc i j hiS (by rw [List.mem_range'_1] at hj; omega)
    rw [List.countP_eq_length.2 hall, List.length_range']
  rw [List.map_congr_left hrow, List.map_const', List.length_range', List.sum_const_nat]

/-- C6 at `S = 2` on `A = [[1/2, 1/3], [1/4, 1/5]]` and `B = [[1, 2], [3, 4]]`,
work items run in the order `(1,0), (0,0), (0,1), (1,1)`. -/
theorem matmul_gpu_all_correct_witness :
    (∀ i j, i < 2 → j < 2 →
      (matmul_ndrange exact_ops 2 2 2 (fun x => 1 / ((x : ℚ) + 2)) (fun x => (x : ℚ) + 1)
        ⟨fun _ => 0, []⟩ [(1, 0), (0, 0), (0, 1), (1, 1)]).mem (2 * i + j) =
        expected_loop exact_ops 2 (fun x => 1 / ((x : ℚ) + 2)) (fun x => (x : ℚ) + 1)
          i j 2 0 exact_ops.zero) ∧
    matmul_gpu_run exact_ops 2 (fun x => 1 / ((x : ℚ) + 2)) (fun x => (x : ℚ) + 1)
      (fun _ => 0) [(1, 0), (0, 0), (0, 1), (1, 1)] = 2 * 2 :=
  ⟨(matmul_gpu_all_correct exact_ops 2 (fun x => 1 / ((x : ℚ) + 2)) (fun x => (x : ℚ) + 1)
      (fun _ => 0) [(1, 0), (0, 0), (0, 1), (1, 1)] (by decide) (by decide)
      (fun i j _ _ => by simp [within_tol, exact_ops])).1,
    (matmul_gpu_all_correct exact_ops 2 (fun x => 1 / ((x : ℚ) + 2)) (fun x => (x : ℚ) + 1)
      (fun _ => 0) [(1, 0), (0, 0), (0, 1), (1, 1)] (by decide) (by decide)
      (fun i j _ _ => by simp [within_tol, exact_ops])).2.2⟩

/-- C6, as stated, fails on a NaN: with `S = 1`, `A = [NaN]` and `B = [0]` the
kernel writes `C[0] = NaN`, which is the host's reference value too, but the
test `diff * diff < TOL * TOL` on `diff = fabs(NaN - NaN)` is false, and the
check reports `correct = 0`, not `1`. -/
theorem matmul_gpu_nan_not_counted :
    matmul_gpu_run (ieee_ops F32.add F32.sub) 1 (fun _ => F32.nan)
      (fun _ => F32.fin false 0) (fun _ => F32.fin false 0) [(0, 0)] = 0 ∧
    (matmul_ndrange (ieee_ops F32.add F32.sub) 1 1 1 (fun _ => F32.nan)
      (fun _ => F32.fin false 0) ⟨fun _ => F32.fin false 0, []⟩ [(0, 0)]).mem 0 =
      expected_loop (ieee_ops F32.add F32.sub) 1 (fun _ => F32.nan)
        (fun _ => F32.fin false 0) 0 0 1 0 (F32.fin false 0) := by
  decide

/-! ### The tolerance test of matmul_gpu.c -/

/-- The macro `TOL` is the `double` nearest to `1/1000`, and `TOL * TOL` is a
53-bit significand at the exponent `-72`. -/
theorem TOL_constants :
    2 ^ 52 ≤ TOL_mant ∧ TOL_mant < 2 ^ 53 ∧
    2 * (1000 * TOL_mant - 2 ^ 62) < 1000 ∧ 2 ^ 62 ≤ 1000 * TOL_mant ∧
    TOL_SQ_mant = 4722366482869645 ∧ 2 ^ 52 ≤ TOL_SQ_mant ∧ TOL_SQ_mant < 2 ^ 53 := by
  decide

theorem log2_eq_of_bounds (n k : Nat) (h1 : 2 ^ k ≤ n) (h2 : n < 2 ^ (k + 1)) :
    Nat.log2 n = k := by
  have hn : n ≠ 0 := by
    have : 0 < 2 ^ k := Nat.pos_pow_of_pos k (by decide)
    omega
  have a := (Nat.le_log2 hn).2 h1
  have b := (Nat.log2_lt hn).2 h2
  omega

/-- Rounding at a fixed exponent is monotone. -/
theorem round_nearest_even_mono (s N N' : Nat) (h : N ≤ N') :
    round_nearest_even N s ≤ round_nearest_even N' s := by
  unfold round_nearest_even
  have hP : 0 < 2 ^ s := Nat.pos_pow_of_pos s (by decide)
  generalize 2 ^ s = P at hP ⊢
  have hq : N / P ≤ N' / P := Nat.div_le_div_right h
  have e1 := Nat.div_add_mod N P
  have e2 := Nat.div_add_mod N' P
  have r1 := Nat.mod_lt N hP
  have r2 := Nat.mod_lt N' hP
  rcases Nat.lt_or_eq_of_le hq with hlt | heq
  · split_ifs <;> omega
  · rw [← heq] at e2 ⊢
    split_ifs <;> omega

theorem round_nearest_even_bounds (s N : Nat) :
    N / 2 ^ s ≤ round_nearest_even N s ∧ round_nearest_even N s ≤ N / 2 ^ s + 1 := by
  unfold round_nearest_even
  split_ifs <;> omega

theorem log2_mono (N N' : Nat) (h : N ≤ N') : Nat.log2 N ≤ Nat.log2 N' := by
  by_cases hN : N = 0
  · subst hN
    have : Nat.log2 0 = 0 := by simp [Nat.log2]
    omega
  · exact (Nat.le_log2 (by omega)).2 (le_trans (Nat.log2_self_le hN) h)

/-- The rounded value `round_nearest_even N s * 2^s`, `s = ulp_exp N`, is
monotone in `N`, across the exponents too. -/
theorem rounded_value_mono (N N' : Nat) (h : N ≤ N') :
    round_nearest_even N (ulp_exp N) * 2 ^ ulp_exp N ≤
      round_nearest_even N' (ulp_exp N') * 2 ^ ulp_exp N' := by
  have hL := log2_mono N N' h
  have hs : ulp_exp N ≤ ulp_exp N' := by unfold ulp_exp; omega
  rcases Nat.lt_or_eq_of_le hs with hlt | heq
  · -- a coarser exponent: the power `2 ^ log2 N'` separates the two values
    have hs' : ulp_exp N' = Nat.log2 N' - 23 := by unfold ulp_exp at hlt ⊢; omega
    have hLL : Nat.log2 N + 1 ≤ Nat.log2 N' := by unfold ulp_exp at hlt; omega
    have hN' : N' ≠ 0 := by
      intro h0
      rw [h0] at hLL
      have : Nat.log2 0 = 0 := by simp [Nat.log2]
      omega
    have hlow : 2 ^ Nat.log2 N' ≤ N' := Nat.log2_self_le hN'
    have hup : N < 2 ^ Nat.log2 N' :=
      lt_of_lt_of_le Nat.lt_log2_self (Nat.pow_le_pow_right (by decide) hLL)
    have hsplit : 2 ^ Nat.log2 N' = 2 ^ (Nat.log2 N' - ulp_exp N) * 2 ^ ulp_exp N := by
      rw [← Nat.pow_add]; congr 1; unfold ulp_exp at hlt ⊢; omega
    have hsplit' : 2 ^ Nat.log2 N' = 2 ^ 23 * 2 ^ ulp_exp N' := by
      rw [← Nat.pow_add]; congr 1; unfold ulp_exp at hlt ⊢; omega
    have hq : N / 2 ^ ulp_exp N < 2 ^ (Nat.log2 N' - ulp_exp N) := by
      apply Nat.div_lt_of_lt_mul
      rw [Nat.mul_comm, ← hsplit]; exact hup
    have hq' : 2 ^ 23 ≤ N' / 2 ^ ulp_exp N' := by
      rw [Nat.le_div_iff_mul_le (Nat.pos_pow_of_pos _ (by decide)), ← hsplit']
      exact hlow
    have b1 := (round_nearest_even_bounds (ulp_exp N) N).2
    have b2 := (round_nearest_even_bounds (ulp_exp N') N').1
    calc round_nearest_even N (ulp_exp N) * 2 ^ ulp_exp N
        ≤ 2 ^ (Nat.log2 N' - ulp_exp N) * 2 ^ ulp_exp N :=
          Nat.mul_le_mul_right _ (by omega)
      _ = 2 ^ 23 * 2 ^ ulp_exp N' := by rw [← hsplit, hsplit']
      _ ≤ round_nearest_even N' (ulp_exp N') * 2 ^ ulp_exp N' :=
          Nat.mul_le_mul_right _ (by omega)
  · rw [← heq]
    exact Nat.mul_le_mul_right _ (round_nearest_even_mono _ N N' h)

/-- The magnitude of the rounded product is monotone. -/
theorem rounded_mag_mono (N N' : Nat) (h : N ≤ N') :
    round_nearest_even N (ulp_exp N) * 2 ^ (ulp_exp N - 149) ≤
      round_nearest_even N' (ulp_exp N') * 2 ^ (ulp_exp N' - 149) := by
  have key : ∀ M : Nat, round_nearest_even M (ulp_exp M) * 2 ^ ulp_exp M =
      round_nearest_even M (ulp_exp M) * 2 ^ (ulp_exp M - 149) * 2 ^ 149 := by
    intro M
    rw [Nat.mul_assoc, ← Nat.pow_add]
    congr 2
    unfold ulp_exp; omega
  have := rounded_value_mono N N' h
  rw [key N, key N'] at this
  exact Nat.le_of_mul_le_mul_right this (Nat.pos_pow_of_pos _ (by decide))

/-- The two `float`s around `TOL`: `8589934 * 2^-33 < TOL < 8589935 * 2^-33`,
and no `float` lies between them. -/
theorem f32_gap_at_TOL (neg : Bool) (m : Nat) (h : (F32.fin neg m).valid) :
    m ≤ 8589934 * 2 ^ 116 ∨ 8589935 * 2 ^ 116 ≤ m := by
  by_contra hc
  have h1 : 8589934 * 2 ^ 116 < m := by omega
  have h2 : m < 8589935 * 2 ^ 116 := by omega
  have hlog : Nat.log2 m = 139 :=
    log2_eq_of_bounds m 139 (le_trans (by decide) (le_of_lt h1)) (lt_trans h2 (by decide))
  obtain ⟨hdvd, -⟩ := h
  rw [hlog] at hdvd
  obtain ⟨j, hj⟩ := hdvd
  norm_num at hj h1 h2
  omega

/-- The square of `8589934 * 2^-33` rounds to `8796092 * 2^-43`, which is below
`TOL * TOL`. -/
theorem round_sq_below_TOL :
    round_nearest_even ((8589934 * 2 ^ 116) * (8589934 * 2 ^ 116))
        (ulp_exp ((8589934 * 2 ^ 116) * (8589934 * 2 ^ 116))) *
      2 ^ (ulp_exp ((8589934 * 2 ^ 116) * (8589934 * 2 ^ 116)) - 149) = 8796092 * 2 ^ 106 := by
  have hlog : Nat.log2 ((8589934 * 2 ^ 116) * (8589934 * 2 ^ 116)) = 278 :=
    log2_eq_of_bounds _ 278
      (by rw [show (278 : Nat) = 139 + 139 from rfl, Nat.pow_add]; decide)
      (by rw [show (278 + 1 : Nat) = 139 + 140 from rfl, Nat.pow_add]; decide)
  have hs : ulp_exp ((8589934 * 2 ^ 116) * (8589934 * 2 ^ 116)) = 255 := by
    unfold ulp_exp; rw [hlog]; rfl
  rw [hs]
  decide

/-- The square of `8589935 * 2^-33` rounds to `8796094 * 2^-43`, which is above
`TOL * TOL`. -/
theorem round_sq_above_TOL :
    round_nearest_even ((8589935 * 2 ^ 116) * (8589935 * 2 ^ 116))
        (ulp_exp ((8589935 * 2 ^ 116) * (8589935 * 2 ^ 116))) *
      2 ^ (ulp_exp ((8589935 * 2 ^ 116) * (8589935 * 2 ^ 116)) - 149) = 8796094 * 2 ^ 106 := by
  have hlog : Nat.log2 ((8589935 * 2 ^ 116) * (8589935 * 2 ^ 116)) = 278 :=
    log2_eq_of_bounds _ 278
      (by rw [show (278 : Nat) = 139 + 139 from rfl, Nat.pow_add]; decide)
      (by rw [show (278 + 1 : Nat) = 139 + 140 from rfl, Nat.pow_add]; decide)
  have hs : ulp_exp ((8589935 * 2 ^ 116) * (8589935 * 2 ^ 116)) = 255 := by
    unfold ulp_exp; rw [hlog]; rfl
  rw [hs]
  decide

/-- On a non-negative `float` `diff`, the test `diff * diff < TOL * TOL`
holds exactly when `diff < TOL`. -/
theorem sq_lt_tol_sq_iff (m : Nat) (h : (F32.fin false m).valid) :
    ((F32.fin false m).mul (F32.fin false m)).lt_double TOL_SQ_mant 72 =
      (F32.fin false m).lt_double TOL_mant 62 := by
  have hT : TOL_SQ_mant = 4722366482869645 := TOL_constants.2.2.2.2.1
  simp only [F32.mul, Bool.xor_self, round_to_f32, hT, TOL_mant]
  rcases f32_gap_at_TOL false m h with hm | hm
  · have hmono := rounded_mag_mono (m * m) ((8589934 * 2 ^ 116) * (8589934 * 2 ^ 116))
      (Nat.mul_le_mul hm hm)
    rw [round_sq_below_TOL] at hmono
    generalize round_nearest_even (m * m) (ulp_exp (m * m)) *
      2 ^ (ulp_exp (m * m) - 149) = X at hmono ⊢
    have hfin : X < 2 ^ 128 * 2 ^ 149 := by omega
    rw [if_pos hfin]
    simp only [F32.lt_double]
    rw [decide_eq_decide]
    constructor <;> intro _ <;> omega
  · have hmono := rounded_mag_mono ((8589935 * 2 ^ 116) * (8589935 * 2 ^ 116)) (m * m)
      (Nat.mul_le_mul hm hm)
    rw [round_sq_above_TOL] at hmono
    generalize round_nearest_even (m * m) (ulp_exp (m * m)) *
      2 ^ (ulp_exp (m * m) - 149) = X at hmono ⊢
    have b : ¬ (m * 2 ^ 62 < 4611686018427388 * 2 ^ 149) := by omega
    by_cases hfin : X < 2 ^ 128 * 2 ^ 149
    · rw [if_pos hfin]
      simp only [F32.lt_double]
      rw [decide_eq_decide]
      constructor <;> intro _ <;> omega
    · rw [if_neg hfin]
      simp only [F32.lt_double]
      exact (decide_eq_false b).symm

/-- The test of the check, on IEEE `float`s: `diff * diff < TOL * TOL` holds
exactly when `diff = fabs(actual - expected)` is below `TOL`. -/
theorem within_tol_ieee (add sub : F32 → F32 → F32) (hsub : ∀ x y, (sub x y).valid)
    (actual expected : F32) :
    within_tol (ieee_ops add sub) actual expected =
      (F32.fabs (sub actual expected)).lt_double TOL_mant 62 := by
  have hv := hsub actual expected
  simp only [within_tol, ieee_ops]
  cases hd : sub actual expected with
  | nan => rfl
  | inf neg => rfl
  | fin neg m =>
    rw [hd] at hv
    exact sq_lt_tol_sq_iff m hv

/-- The nested loops of the check count the accepted pairs `(i, j)`. -/
theorem matmul_check_eq_countP {F : Type} (ops : FloatOps F) (SIZE : Nat)
    (h_a h_b h_c : Nat → F) :
    matmul_check ops SIZE h_a h_b h_c =
      (List.product (List.range SIZE) (List.range SIZE)).countP (fun w =>
        within_tol ops (h_c (SIZE * w.1 + w.2))
          (expected_loop ops SIZE h_a h_b w.1 w.2 SIZE 0 ops.zero)) := by
  unfold matmul_check
  rw [check_i_loop_eq, Nat.zero_add, List.product, List.countP_flatMap,
    ← List.range_eq_range']
  congr 1
  apply List.map_congr_left
  intro i _
  simp only [Function.comp, List.countP_map]
  rfl

/-- Rounding gives a finite magnitude below `2^128`, or an infinity. -/
theorem round_to_f32_cases (neg : Bool) (N : Nat) :
    (round_nearest_even N (ulp_exp N) * 2 ^ (ulp_exp N - 149) < 2 ^ 128 * 2 ^ 149 ∧
      round_to_f32 neg N =
        .fin neg (round_nearest_even N (ulp_exp N) * 2 ^ (ulp_exp N - 149))) ∨
    round_to_f32 neg N = .inf neg := by
  simp only [round_to_f32]
  rcases Nat.lt_or_ge (round_nearest_even N (ulp_exp N) * 2 ^ (ulp_exp N - 149))
    (2 ^ 128 * 2 ^ 149) with hfin | hfin
  · rw [if_pos hfin]
    exact Or.inl ⟨hfin, rfl⟩
  · rw [if_neg (Nat.not_lt.2 hfin)]
    exact Or.inr rfl

/-- A magnitude `q * 2^k` with `q ≤ 2^24` has at most 24 significant bits. -/
theorem dvd_of_24_bits (q k : Nat) (hq : q ≤ 2 ^ 24) :
    2 ^ (Nat.log2 (q * 2 ^ k) - 23) ∣ q * 2 ^ k := by
  have hm : q * 2 ^ k ≤ 2 ^ (24 + k) := by
    rw [Nat.pow_add]; exact Nat.mul_le_mul_right _ hq
  rcases Nat.lt_or_eq_of_le hm with hlt | heq
  · by_cases h0 : q * 2 ^ k = 0
    · rw [h0]; exact dvd_zero _
    · have hl : Nat.log2 (q * 2 ^ k) < 24 + k := (Nat.log2_lt h0).2 hlt
      exact Dvd.dvd.mul_left (Nat.pow_dvd_pow 2 (by omega)) q
  · rw [heq]
    have hl : Nat.log2 (2 ^ (24 + k)) = 24 + k :=
      log2_eq_of_bounds _ _ (le_refl _) (Nat.pow_lt_pow_right (by decide) (by omega))
    rw [hl]
    exact Nat.pow_dvd_pow 2 (by omega)

/-- Rounding gives a `float`: at most 24 significant bits. -/
theorem round_to_f32_valid (neg : Bool) (N : Nat) : (round_to_f32 neg N).valid := by
  have hc := round_to_f32_cases neg N
  generalize round_to_f32 neg N = x at hc ⊢
  rcases hc with ⟨hfin, h⟩ | h
  · subst h
    refine ⟨?_, hfin⟩
    have hs : Nat.log2 N + 1 ≤ ulp_exp N + 24 := by unfold ulp_exp; omega
    have hN : N < 2 ^ ulp_exp N * 2 ^ 24 := by
      rw [← Nat.pow_add]
      exact lt_of_lt_of_le Nat.lt_log2_self (Nat.pow_le_pow_right (by decide) hs)
    have hq : N / 2 ^ ulp_exp N < 2 ^ 24 := Nat.div_lt_of_lt_mul hN
    have hq' : round_nearest_even N (ulp_exp N) ≤ 2 ^ 24 := by
      have := (round_nearest_even_bounds (ulp_exp N) N).2
      omega
    exact dvd_of_24_bits _ _ hq'
  · subst h
    exact True.intro

/-- The operator `+` gives a `float`. -/
theorem add_valid (x y : F32) : (x.add y).valid := by
  cases x with
  | nan => cases y <;> exact True.intro
  | inf s1 =>
    cases y with
    | nan => exact True.intro
    | inf s2 =>
      by_cases h : s1 = s2
      · simp only [F32.add, h, if_true]; exact True.intro
      · simp only [F32.add, h, if_false]; exact True.intro
    | fin s2 b => exact True.intro
  | fin s1 a =>
    cases y with
    | nan => exact True.intro
    | inf s2 => exact True.intro
    | fin s2 b =>
      have e : (F32.fin s1 a).add (F32.fin s2 b) =
          if s1 = s2 then round_to_f32 s1 ((a + b) * 2 ^ 149)
          else if a = b then .fin false 0
          else if b < a then round_to_f32 s1 ((a - b) * 2 ^ 149)
          else round_to_f32 s2 ((b - a) * 2 ^ 149) := rfl
      rw [e]
      by_cases h1 : s1 = s2
      · rw [if_pos h1]
        exact round_to_f32_valid s1 ((a + b) * 2 ^ 149)
      · rw [if_neg h1]
        by_cases h2 : a = b
        · rw [if_pos h2]
          exact ⟨dvd_zero _, Nat.mul_pos (Nat.pos_pow_of_pos _ (by decide))
            (Nat.pos_pow_of_pos _ (by decide))⟩
        · rw [if_neg h2]
          by_cases h3 : b < a
          · rw [if_pos h3]
            exact round_to_f32_valid s1 ((a - b) * 2 ^ 149)
          · rw [if_neg h3]
            exact round_to_f32_valid s2 ((b - a) * 2 ^ 149)

/-- The operator `-` gives a `float`. -/
theorem sub_valid (x y : F32) : (x.sub y).valid :=
  add_valid x y.neg

/-- The logarithm of a number scaled by a power of two. -/
theorem log2_mul_pow (a k t : Nat) (h1 : 2 ^ k ≤ a) (h2 : a < 2 ^ (k + 1)) :
    Nat.log2 (a * 2 ^ t) = k + t := by
  apply log2_eq_of_bounds
  · rw [Nat.pow_add]
    exact Nat.mul_le_mul_right _ h1
  · rw [show k + t + 1 = (k + 1) + t by omega, Nat.pow_add]
    exact Nat.mul_lt_mul_of_pos_right h2 (Nat.pos_pow_of_pos _ (by decide))

/-- Rounding commutes with scaling by a power of two. -/
theorem round_nearest_even_scale (a u t : Nat) :
    round_nearest_even (a * 2 ^ t) (u + t) = round_nearest_even a u := by
  unfold round_nearest_even
  have ht : 0 < 2 ^ t := Nat.pos_pow_of_pos _ (by decide)
  rw [Nat.pow_add, Nat.mul_mod_mul_right, Nat.mul_div_mul_right _ _ ht]
  have e1 : (2 ^ u * 2 ^ t < 2 * (a % 2 ^ u * 2 ^ t)) ↔ (2 ^ u < 2 * (a % 2 ^ u)) := by
    rw [← Nat.mul_assoc]
    exact Nat.mul_lt_mul_right ht
  have e2 : (2 * (a % 2 ^ u * 2 ^ t) = 2 ^ u * 2 ^ t) ↔ (2 * (a % 2 ^ u) = 2 ^ u) := by
    rw [← Nat.mul_assoc]
    exact Nat.mul_left_inj (by omega)
  simp only [e1, e2]

/-- The magnitude that `a * 2^-149` rounds to, for `a` with `k + 1` bits: `a`
rounded to a multiple of `2^(k-23)`. -/
theorem rounded_mag_scaled (a k : Nat) (h1 : 2 ^ k ≤ a) (h2 : a < 2 ^ (k + 1)) :
    round_nearest_even (a * 2 ^ 149) (ulp_exp (a * 2 ^ 149)) *
        2 ^ (ulp_exp (a * 2 ^ 149) - 149) =
      round_nearest_even a (k - 23) * 2 ^ (k - 23) := by
  have hs : ulp_exp (a * 2 ^ 149) = (k - 23) + 149 := by
    unfold ulp_exp
    rw [log2_mul_pow a k 149 h1 h2]
    omega
  rw [hs, round_nearest_even_scale, Nat.add_sub_cancel]

/-- The value of a rounding, from the bit length of the exact magnitude. -/
theorem round_to_f32_scaled (neg : Bool) (a k m : Nat) (h1 : 2 ^ k ≤ a) (h2 : a < 2 ^ (k + 1))
    (hm : round_nearest_even a (k - 23) * 2 ^ (k - 23) = m) (hfin : m < 2 ^ 128 * 2 ^ 149) :
    round_to_f32 neg (a * 2 ^ 149) = .fin neg m := by
  simp only [round_to_f32]
  rw [rounded_mag_scaled a k h1 h2, hm, if_pos hfin]

/-- An exact zero stays zero. -/
theorem round_to_f32_zero (neg : Bool) : round_to_f32 neg (0 * 2 ^ 149) = .fin neg 0 := by
  simp only [round_to_f32]
  have h0 : round_nearest_even (0 * 2 ^ 149) (ulp_exp (0 * 2 ^ 149)) = 0 := by
    simp [round_nearest_even]
  rw [h0, Nat.zero_mul, if_pos (by decide)]

/-- The sign does not matter under `fabs`. -/
theorem fabs_round_to_f32 (neg : Bool) (N : Nat) :
    F32.fabs (round_to_f32 neg N) = round_to_f32 false N := by
  simp only [round_to_f32]
  split <;> rfl

/-- An exact difference up to `8589934 * 2^-33`, the `float` below `TOL`,
rounds to a `float` below `TOL`. -/
theorem round_below_TOL (neg : Bool) (D : Nat) (hD : D ≤ 8589934 * 2 ^ 116) :
    (F32.fabs (round_to_f32 neg (D * 2 ^ 149))).lt_double TOL_mant 62 = true := by
  have hmono := rounded_mag_mono (D * 2 ^ 149) (8589934 * 2 ^ 116 * 2 ^ 149)
    (Nat.mul_le_mul_right _ hD)
  rw [rounded_mag_scaled (8589934 * 2 ^ 116) 139 (by decide) (by decide),
    show round_nearest_even (8589934 * 2 ^ 116) (139 - 23) * 2 ^ (139 - 23) =
      8589934 * 2 ^ 116 by decide] at hmono
  rw [fabs_round_to_f32]
  simp only [round_to_f32, TOL_mant]
  generalize round_nearest_even (D * 2 ^ 149) (ulp_exp (D * 2 ^ 149)) *
    2 ^ (ulp_exp (D * 2 ^ 149) - 149) = X at hmono ⊢
  have hfin : X < 2 ^ 128 * 2 ^ 149 := by omega
  rw [if_pos hfin]
  simp only [F32.lt_double]
  rw [decide_eq_true_iff]
  omega

/-- An exact difference from `8589935 * 2^-33` on, the `float` above `TOL`,
rounds to a `float` that is not below `TOL`, or to an infinity. -/
theorem round_above_TOL (neg : Bool) (D : Nat) (hD : 8589935 * 2 ^ 116 ≤ D) :
    (F32.fabs (round_to_f32 neg (D * 2 ^ 149))).lt_double TOL_mant 62 = false := by
  have hmono := rounded_mag_mono (8589935 * 2 ^ 116 * 2 ^ 149) (D * 2 ^ 149)
    (Nat.mul_le_mul_right _ hD)
  rw [rounded_mag_scaled (8589935 * 2 ^ 116) 139 (by decide) (by decide),
    show round_nearest_even (8589935 * 2 ^ 116) (139 - 23) * 2 ^ (139 - 23) =
      8589935 * 2 ^ 116 by decide] at hmono
  rw [fabs_round_to_f32]
  simp only [round_to_f32, TOL_mant]
  generalize round_nearest_even (D * 2 ^ 149) (ulp_exp (D * 2 ^ 149)) *
    2 ^ (ulp_exp (D * 2 ^ 149) - 149) = X at hmono ⊢
  by_cases hfin : X < 2 ^ 128 * 2 ^ 149
  · rw [if_pos hfin]
    simp only [F32.lt_double]
    rw [decide_eq_false_iff_not]
    omega
  · rw [if_neg hfin]
    rfl

/-- On a `float` `diff = fabs(..)`, the comparison `diff < TOL` with the
`double` `TOL` holds exactly when `diff` is a number below `TOL`, and exactly
when it is a number below `1/1000`: no `float` lies between the two. -/
theorem fabs_lt_TOL_iff (z : F32) (hz : z.valid) :
    ((F32.fabs z).lt_double TOL_mant 62 = true ↔
      ∃ d : ℚ, (F32.fabs z).value = some d ∧ d < (TOL_mant : ℚ) / 2 ^ 62) ∧
    ((F32.fabs z).lt_double TOL_mant 62 = true ↔
      ∃ d : ℚ, (F32.fabs z).value = some d ∧ d < 1 / 1000) := by
  cases z with
  | nan => simp [F32.fabs, F32.lt_double, F32.value]
  | inf neg => simp [F32.fabs, F32.lt_double, F32.value]
  | fin neg m =>
    have hgap := f32_gap_at_TOL neg m hz
    have hp : (0 : ℚ) < 2 ^ 149 := by positivity
    have hq : (0 : ℚ) < 2 ^ 62 := by positivity
    have e1 : ((m : ℚ) / 2 ^ 149 < (TOL_mant : ℚ) / 2 ^ 62) ↔
        m * 2 ^ 62 < TOL_mant * 2 ^ 149 := by
      rw [div_lt_div_iff₀ hp hq]
      exact_mod_cast Iff.rfl
    have e2 : ((m : ℚ) / 2 ^ 149 < 1 / 1000) ↔ m * 1000 < 2 ^ 149 := by
      rw [div_lt_div_iff₀ hp (by norm_num : (0 : ℚ) < 1000), one_mul]
      exact_mod_cast Iff.rfl
    have e3 : m * 2 ^ 62 < TOL_mant * 2 ^ 149 ↔ m * 1000 < 2 ^ 149 := by
      unfold TOL_mant
      constructor <;> intro _ <;> omega
    simp only [F32.fabs, F32.lt_double, F32.value, decide_eq_true_eq, Bool.false_eq_true,
      if_false, Option.some.injEq, exists_eq_left', e1, e2, e3, and_self]

/-- The difference of two finite `float`s under `fabs`: the exact absolute
difference `D * 2^-149` of the two numbers, rounded to `float`. -/
theorem fabs_sub_fin (s1 s2 : Bool) (a b : Nat) :
    ∃ D : Nat,
      (D : ℚ) / 2 ^ 149 =
        |(if s1 then -(a : ℚ) else (a : ℚ)) / 2 ^ 149 -
          (if s2 then -(b : ℚ) else (b : ℚ)) / 2 ^ 149| ∧
      F32.fabs (F32.sub (.fin s1 a) (.fin s2 b)) = round_to_f32 false (D * 2 ^ 149) := by
  have e : F32.sub (.fin s1 a) (.fin s2 b) =
      if s1 = !s2 then round_to_f32 s1 ((a + b) * 2 ^ 149)
      else if a = b then .fin false 0
      else if b < a then round_to_f32 s1 ((a - b) * 2 ^ 149)
      else round_to_f32 (!s2) ((b - a) * 2 ^ 149) := rfl
  have hp : (0 : ℚ) < 2 ^ 149 := by positivity
  have habs : ∀ x y : ℚ, |x / 2 ^ 149 - y / 2 ^ 149| = |x - y| / 2 ^ 149 := by
    intro x y
    rw [← sub_div, abs_div, abs_of_pos hp]
  have ha : (0 : ℚ) ≤ a := Nat.cast_nonneg a
  have hb : (0 : ℚ) ≤ b := Nat.cast_nonneg b
  rw [e, habs]
  by_cases h1 : s1 = !s2
  · refine ⟨a + b, ?_, by rw [if_pos h1, fabs_round_to_f32]⟩
    refine congrArg (fun q : ℚ => q / 2 ^ 149) ?_
    cases s1 <;> cases s2 <;> simp at h1
    · simp only [Bool.false_eq_true, if_false, if_true, sub_neg_eq_add, Nat.cast_add]
      rw [abs_of_nonneg (add_nonneg ha hb)]
    · simp only [Bool.false_eq_true, if_false, if_true, Nat.cast_add]
      rw [abs_of_nonpos (by linarith)]
      ring
  · rw [if_neg h1]
    have hs : s1 = s2 := by cases s1 <;> cases s2 <;> simp at h1 ⊢
    subst hs
    by_cases h2 : a = b
    · subst h2
      refine ⟨0, ?_, by rw [if_pos rfl, round_to_f32_zero]; rfl⟩
      simp
    · rw [if_neg h2]
      by_cases h3 : b < a
      · refine ⟨a - b, ?_, by rw [if_pos h3, fabs_round_to_f32]⟩
        refine congrArg (fun q : ℚ => q / 2 ^ 149) ?_
        have hle : (b : ℚ) ≤ a := by exact_mod_cast h3.le
        rw [Nat.cast_sub h3.le]
        cases s1
        · simp only [Bool.false_eq_true, if_false]
          rw [abs_of_nonneg (by linarith)]
        · simp only [if_true]
          rw [abs_of_nonpos (by linarith)]
          ring
      · refine ⟨b - a, ?_, by rw [if_neg h3, fabs_round_to_f32]⟩
        refine congrArg (fun q : ℚ => q / 2 ^ 149) ?_
        have hle' : a ≤ b := by omega
        have hle : (a : ℚ) ≤ b := by exact_mod_cast hle'
        rw [Nat.cast_sub hle']
        cases s1
        · simp only [Bool.false_eq_true, if_false]
          rw [abs_of_nonpos (by linarith)]
          ring
        · simp only [if_true]
          rw [abs_of_nonneg (by linarith)]
          ring

/-- The test of the check against the exact difference of two finite
`float`s: it accepts when the exact absolute difference is at most
`8589934 * 2^-33`, the `float` below `TOL`, and rejects when it is at least
`8589935 * 2^-33`, the `float` above `TOL`. -/
theorem within_tol_exact (actual expected : F32) (x y : ℚ)
    (hx : actual.value = some x) (hy : expected.value = some y) :
    (|x - y| ≤ 8589934 / 2 ^ 33 →
      within_tol (ieee_ops F32.add F32.sub) actual expected = true) ∧
    (8589935 / 2 ^ 33 ≤ |x - y| →
      within_tol (ieee_ops F32.add F32.sub) actual expected = false) := by
  rw [within_tol_ieee F32.add F32.sub sub_valid]
  cases actual with
  | nan => simp [F32.value] at hx
  | inf s => simp [F32.value] at hx
  | fin s1 a =>
    cases expected with
    | nan => simp [F32.value] at hy
    | inf s => simp [F32.value] at hy
    | fin s2 b =>
      simp only [F32.value, Option.some.injEq] at hx hy
      obtain ⟨D, hD, hsub⟩ := fabs_sub_fin s1 s2 a b
      rw [hx, hy] at hD
      rw [hsub, ← fabs_round_to_f32 false]
      have hp : (0 : ℚ) < 2 ^ 149 := by positivity
      have hq : (0 : ℚ) < 2 ^ 33 := by positivity
      rw [← hD]
      constructor
      · intro h
        apply round_below_TOL
        rw [div_le_div_iff₀ hp hq] at h
        have h' : D * 2 ^ 33 ≤ 8589934 * 2 ^ 149 := by exact_mod_cast h
        omega
      · intro h
        apply round_above_TOL
        rw [div_le_div_iff₀ hq hp] at h
        have h' : 8589935 * 2 ^ 149 ≤ D * 2 ^ 33 := by exact_mod_cast h
        omega

/-- The product `(-9 * 2^-37) * 1` is exact. -/
theorem rounding_example_mul :
    F32.mul (.fin true (9 * 2 ^ 112)) (.fin false (2 ^ 149)) = .fin true (9 * 2 ^ 112) := by
  have e : F32.mul (.fin true (9 * 2 ^ 112)) (.fin false (2 ^ 149)) =
      round_to_f32 true (9 * 2 ^ 112 * 2 ^ 149) := rfl
  rw [e]
  exact round_to_f32_scaled true (9 * 2 ^ 112) 115 (9 * 2 ^ 112)
    (by decide) (by decide) (by decide) (by decide)

/-- The sum `0 + (-9 * 2^-37)` is exact. -/
theorem rounding_example_add :
    F32.add (.fin false 0) (.fin true (9 * 2 ^ 112)) = .fin true (9 * 2 ^ 112) := by
  have e : F32.add (.fin false 0) (.fin true (9 * 2 ^ 112)) =
      if false = true then round_to_f32 false ((0 + 9 * 2 ^ 112) * 2 ^ 149)
      else if 0 = 9 * 2 ^ 112 then .fin false 0
      else if 9 * 2 ^ 112 < 0 then round_to_f32 false ((0 - 9 * 2 ^ 112) * 2 ^ 149)
      else round_to_f32 true ((9 * 2 ^ 112 - 0) * 2 ^ 149) := rfl
  rw [e, if_neg (by decide), if_neg (by decide), if_neg (by decide), Nat.sub_zero]
  exact round_to_f32_scaled true (9 * 2 ^ 112) 115 (9 * 2 ^ 112)
    (by decide) (by decide) (by decide) (by decide)

/-- The difference `8589934 * 2^-33 - (-9 * 2^-37)` is `137438953 * 2^-37`,
which takes 28 bits and rounds up to `8589935 * 2^-33`. -/
theorem rounding_example_sub :
    F32.sub (.fin false (8589934 * 2 ^ 116)) (.fin true (9 * 2 ^ 112)) =
      .fin false (8589935 * 2 ^ 116) := by
  have e : F32.sub (.fin false (8589934 * 2 ^ 116)) (.fin true (9 * 2 ^ 112)) =
      if false = false then round_to_f32 false ((8589934 * 2 ^ 116 + 9 * 2 ^ 112) * 2 ^ 149)
      else if 8589934 * 2 ^ 116 = 9 * 2 ^ 112 then .fin false 0
      else if 9 * 2 ^ 112 < 8589934 * 2 ^ 116 then
        round_to_f32 false ((8589934 * 2 ^ 116 - 9 * 2 ^ 112) * 2 ^ 149)
      else round_to_f32 false ((9 * 2 ^ 112 - 8589934 * 2 ^ 116) * 2 ^ 149) := rfl
  rw [e, if_pos rfl]
  exact round_to_f32_scaled false (8589934 * 2 ^ 116 + 9 * 2 ^ 112) 139 (8589935 * 2 ^ 116)
    (by decide) (by decide) (by decide) (by decide)

/-- A magnitude with `k + 1` bits that is a multiple of `2^(k-23)` is a
`float`. -/
theorem valid_of_bits (neg : Bool) (m k : Nat) (h1 : 2 ^ k ≤ m) (h2 : m < 2 ^ (k + 1))
    (hd : 2 ^ (k - 23) ∣ m) (hfin : m < 2 ^ 128 * 2 ^ 149) : (F32.fin neg m).valid := by
  have h : 2 ^ (Nat.log2 m - 23) ∣ m ∧ m < 2 ^ 128 * 2 ^ 149 := by
    rw [log2_eq_of_bounds m k h1 h2]
    exact ⟨hd, hfin⟩
  exact h

/-- The check of a 1-by-1 product: one reference value, one test. -/
theorem matmul_check_one {F : Type} (ops : FloatOps F) (a b c : F) :
    expected_loop ops 1 (fun _ => a) (fun _ => b) 0 0 1 0 ops.zero =
      ops.add ops.zero (ops.mul a b) ∧
    matmul_check ops 1 (fun _ => a) (fun _ => b) (fun _ => c) =
      if within_tol ops c (ops.add ops.zero (ops.mul a b)) = true then 1 else 0 := by
  refine ⟨rfl, ?_⟩
  simp [matmul_check, check_i_loop, check_j_loop, expected_loop]

/-- The operations of `ieee_ops`. -/
theorem ieee_ops_apply (add sub : F32 → F32 → F32) (x y : F32) :
    (ieee_ops add sub).zero = .fin false 0 ∧ (ieee_ops add sub).add x y = add x y ∧
    (ieee_ops add sub).mul x y = F32.mul x y :=
  ⟨rfl, rfl, rfl⟩

/-- C5, as stated, fails where rounding the difference crosses `TOL`: for the
1-by-1 matrices `A = [-9 * 2^-37]`, `B = [1]` the reference value is
`-9 * 2^-37`; with the computed value `8589934 * 2^-33` the exact
`|actual - expected|` is `137438953 * 2^-37`, below `1e-3`, but
`actual - expected` rounds to the `float` `8589935 * 2^-33`, above `TOL`, and
the check counts `correct = 0`. -/
theorem matmul_check_rejects_diff_below_TOL :
    matmul_check (ieee_ops F32.add F32.sub) 1 (fun _ => .fin true (9 * 2 ^ 112))
      (fun _ => .fin false (2 ^ 149)) (fun _ => .fin false (8589934 * 2 ^ 116)) = 0 ∧
    expected_loop (ieee_ops F32.add F32.sub) 1 (fun _ => .fin true (9 * 2 ^ 112))
      (fun _ => .fin false (2 ^ 149)) 0 0 1 0 (ieee_ops F32.add F32.sub).zero =
        .fin true (9 * 2 ^ 112) ∧
    (F32.fin true (9 * 2 ^ 112)).valid ∧ (F32.fin false (2 ^ 149)).valid ∧
    (F32.fin false (8589934 * 2 ^ 116)).valid ∧
    (F32.fin true (9 * 2 ^ 112)).value = some (-9 / 2 ^ 37) ∧
    (F32.fin false (2 ^ 149)).value = some 1 ∧
    (F32.fin false (8589934 * 2 ^ 116)).value = some (8589934 / 2 ^ 33) ∧
    |(8589934 / 2 ^ 33 : ℚ) - (-9 / 2 ^ 37)| < 1 / 1000 := by
  have hval : (ieee_ops F32.add F32.sub).add (ieee_ops F32.add F32.sub).zero
      ((ieee_ops F32.add F32.sub).mul (.fin true (9 * 2 ^ 112)) (.fin false (2 ^ 149))) =
        .fin true (9 * 2 ^ 112) := by
    rw [(ieee_ops_apply F32.add F32.sub .nan .nan).1, (ieee_ops_apply F32.add F32.sub _ _).2.2,
      (ieee_ops_apply F32.add F32.sub _ _).2.1, rounding_example_mul, rounding_example_add]
  have hw : within_tol (ieee_ops F32.add F32.sub) (.fin false (8589934 * 2 ^ 116))
      (.fin true (9 * 2 ^ 112)) = false := by
    rw [within_tol_ieee F32.add F32.sub sub_valid, rounding_example_sub]
    simp only [F32.fabs, F32.lt_double, TOL_mant]
    rw [decide_eq_false_iff_not]
    omega
  refine ⟨?_, ?_, ?_, ?_, ?_, ?_, ?_, ?_, ?_⟩
  · rw [(matmul_check_one _ _ _ _).2, hval, hw]
    exact if_neg Bool.false_ne_true
  · rw [(matmul_check_one _ _ _ (F32.fin false 0)).1, hval]
  · exact valid_of_bits true (9 * 2 ^ 112) 115 (by decide) (by decide) (by decide) (by decide)
  · exact valid_of_bits false (2 ^ 149) 149 (by decide) (by decide) (by decide) (by decide)
  · exact valid_of_bits false (8589934 * 2 ^ 116) 139 (by decide) (by decide) (by decide)
      (by decide)
  · simp only [F32.value, if_true, Option.some.injEq]
    rw [div_eq_div_iff (by positivity) (by positivity)]
    norm_num
  · simp only [F32.value, Bool.false_eq_true, if_false, Option.some.injEq]
    rw [div_eq_one_iff_eq (by positivity)]
    norm_num
  · simp only [F32.value, Bool.false_eq_true, if_false, Option.some.injEq]
    rw [div_eq_div_iff (by positivity) (by positivity)]
    norm_num
  · rw [abs_of_nonneg (by norm_num)]
    norm_num

/-- The test of the check as a test on the value of `diff`. -/
theorem within_tol_eq_any (actual expected : F32) :
    within_tol (ieee_ops F32.add F32.sub) actual expected =
      ((F32.fabs (F32.sub actual expected)).value).any (fun d => decide (d < 1 / 1000)) := by
  rw [within_tol_ieee F32.add F32.sub sub_valid, Bool.eq_iff_iff,
    (fabs_lt_TOL_iff _ (sub_valid actual expected)).2]
  cases (F32.fabs (F32.sub actual expected)).value <;> simp [Option.any]

/-- C5, amended: in the result check of matmul_gpu.c, with `SIZE * SIZE`
below `2^31`, the index `(i, j)` is counted as matched exactly when the
`float` `diff = fabs(actual - expected)`, the difference as rounded to
`float`, is a number (not NaN, not infinite) below `TOL`, which is the same as
below `1/1000`: the test `diff * diff < TOL * TOL` is equivalent to
`diff < TOL`.  Against the exact difference of two finite values, the test
accepts when `|actual - expected| ≤ 8589934 * 2^-33` and rejects when
`|actual - expected| ≥ 8589935 * 2^-33`, these being the `float`s next to
`TOL`; `diff` is the exact absolute difference rounded to `float`.  The final
`correct` is the number of accepted indices among the `SIZE * SIZE` compared,
whose flat indices fit an `int`. -/
theorem matmul_check_counts_within_tol (SIZE : Nat) (h_a h_b h_c : Nat → F32)
    (hS : SIZE * SIZE < 2 ^ 31) :
    (∀ actual expected : F32,
      (within_tol (ieee_ops F32.add F32.sub) actual expected = true ↔
        ∃ d : ℚ, (F32.fabs (F32.sub actual expected)).value = some d ∧
          d < (TOL_mant : ℚ) / 2 ^ 62) ∧
      (within_tol (ieee_ops F32.add F32.sub) actual expected = true ↔
        ∃ d : ℚ, (F32.fabs (F32.sub actual expected)).value = some d ∧ d < 1 / 1000)) ∧
    (∀ (actual expected : F32) (x y : ℚ), actual.value = some x → expected.value = some y →
      (|x - y| ≤ 8589934 / 2 ^ 33 →
        within_tol (ieee_ops F32.add F32.sub) actual expected = true) ∧
      (8589935 / 2 ^ 33 ≤ |x - y| →
        within_tol (ieee_ops F32.add F32.sub) actual expected = false) ∧
      ∃ D : Nat, (D : ℚ) / 2 ^ 149 = |x - y| ∧
        F32.fabs (F32.sub actual expected) = round_to_f32 false (D * 2 ^ 149)) ∧
    matmul_check (ieee_ops F32.add F32.sub) SIZE h_a h_b h_c =
      (List.product (List.range SIZE) (List.range SIZE)).countP (fun w =>
        ((F32.fabs (F32.sub (h_c (SIZE * w.1 + w.2))
          (expected_loop (ieee_ops F32.add F32.sub) SIZE h_a h_b w.1 w.2 SIZE 0
            (F32.fin false 0)))).value).any (fun d => decide (d < 1 / 1000))) ∧
    (List.product (List.range SIZE) (List.range SIZE)).length = SIZE * SIZE ∧
    (∀ i j, i < SIZE → j < SIZE → SIZE * i + j < 2 ^ 31) := by
  refine ⟨fun actual expected => ?_, fun actual expected x y hx hy => ?_, ?_, ?_, ?_⟩
  · rw [within_tol_ieee F32.add F32.sub sub_valid]
    exact fabs_lt_TOL_iff _ (sub_valid actual expected)
  · refine ⟨(within_tol_exact actual expected x y hx hy).1,
      (within_tol_exact actual expected x y hx hy).2, ?_⟩
    cases actual with
    | nan => simp [F32.value] at hx
    | inf s => simp [F32.value] at hx
    | fin s1 a =>
      cases expected with
      | nan => simp [F32.value] at hy
      | inf s => simp [F32.value] at hy
      | fin s2 b =>
        simp only [F32.value, Option.some.injEq] at hx hy
        obtain ⟨D, hD, hsub⟩ := fabs_sub_fin s1 s2 a b
        rw [hx, hy] at hD
        exact ⟨D, hD, hsub⟩
  · rw [matmul_check_eq_countP]
    congr 1
    funext w
    exact within_tol_eq_any _ _
  · exact (List.length_product _ _).trans (by rw [List.length_range])
  · intro i j hi hj
    exact lt_trans (row_major_lt SIZE i j hi hj) hS

/-- C5 amended, for the 1-by-1 product `[3 * 2^-149] * [5 * 2^-149]` and a
computed value of `2^-149`. -/
theorem matmul_check_counts_within_tol_witness :
    (∀ actual expected : F32,
      (within_tol (ieee_ops F32.add F32.sub) actual expected = true ↔
        ∃ d : ℚ, (F32.fabs (F32.sub actual expected)).value = some d ∧
          d < (TOL_mant : ℚ) / 2 ^ 62) ∧
      (within_tol (ieee_ops F32.add F32.sub) actual expected = true ↔
        ∃ d : ℚ, (F32.fabs (F32.sub actual expected)).value = some d ∧ d < 1 / 1000)) ∧
    matmul_check (ieee_ops F32.add F32.sub) 1
        (fun _ => .fin false 3) (fun _ => .fin false 5) (fun _ => .fin false 1) =
      (List.product (List.range 1) (List.range 1)).countP (fun w =>
        ((F32.fabs (F32.sub (F32.fin false 1)
          (expected_loop (ieee_ops F32.add F32.sub) 1
            (fun _ => .fin false 3) (fun _ => .fin false 5) w.1 w.2 1 0
            (F32.fin false 0)))).value).any (fun d => decide (d < 1 / 1000))) :=
  ⟨(matmul_check_counts_within_tol 1
      (fun _ => .fin false 3) (fun _ => .fin false 5) (fun _ => .fin false 1) (by decide)).1,
    (matmul_check_counts_within_tol 1
      (fun _ => .fin false 3) (fun _ => .fin false 5) (fun _ => .fin false 1)
      (by decide)).2.2.1⟩

/-! ### The kernel `vector_add` and the check of vadd_2.c -/

/-- A number up to `INT_MAX` is kept by the conversion to `int`. -/
theorem wrap_int32_of_le (x : Nat) (hx : x ≤ INT_MAX) : wrap_int32 (x : Int) = (x : Int) := by
  unfold INT_MAX at hx
  unfold wrap_int32
  norm_num
  omega

/-- A work item with an id up to `INT_MAX` stores to its own index when the id
is below `count`, and does nothing otherwise. -/
theorem vector_add_of_le {F : Type} (ops : FloatOps F) (a b : Nat → F) (c : DevBuf F)
    (count gid : Nat) (hg : gid ≤ INT_MAX) :
    vector_add ops a b c count gid =
      some (if gid < count then c.store gid (ops.add (a gid) (b gid)) else c) := by
  have hmod : (gid : Int) % 2 ^ 32 = (gid : Int) := by
    unfold INT_MAX at hg
    norm_num
    omega
  simp only [vector_add, wrap_int32_of_le gid hg, hmod, Int.toNat_ofNat, Nat.cast_lt,
    Int.natCast_nonneg, if_true]
  split <;> rfl

/-- A work item whose id is `2^31` holds `i = -2^31`, which as an
`unsigned int` is below a larger `count`: its accesses `c[i]`, `a[i]`, `b[i]`
lie outside the buffers. -/
theorem vector_add_negative_index {F : Type} (ops : FloatOps F) (a b : Nat → F)
    (c : DevBuf F) : vector_add ops a b c 4294967295 2147483648 = none := by
  have h : wrap_int32 ((2147483648 : Nat) : Int) = -2147483648 := by decide
  simp only [vector_add, h]
  rw [if_pos (by decide), if_neg (by decide)]

/-- Running the work items of `schedule`, all with ids up to `INT_MAX`: an
index is stored to when a work item with that id below `count` runs, once per
such work item. -/
theorem vadd_2_ndrange_spec {F : Type} (ops : FloatOps F) (a b : Nat → F) (count : Nat) :
    ∀ (schedule : List Nat) (c : DevBuf F), (∀ gid ∈ schedule, gid ≤ INT_MAX) →
      ∃ d, vadd_2_ndrange ops a b c count schedule = some d ∧
        (∀ j, d.mem j =
          if j ∈ schedule ∧ j < count then ops.add (a j) (b j) else c.mem j) ∧
        d.stored = c.stored ++ schedule.filter (fun i => decide (i < count)) := by
  intro schedule
  induction schedule with
  | nil => intro c _; exact ⟨c, rfl, by simp, by simp⟩
  | cons i rest ih =>
    intro c hle
    have hi' : i ≤ INT_MAX := hle i (List.mem_cons_self _ _)
    obtain ⟨d, hd, h1, h2⟩ :=
      ih (if i < count then c.store i (ops.add (a i) (b i)) else c)
        (fun g hg => hle g (List.mem_cons_of_mem _ hg))
    refine ⟨d, ?_, fun j => ?_, ?_⟩
    · rw [vadd_2_ndrange, vector_add_of_le ops a b c count i hi', Option.some_bind]
      exact hd
    · rw [h1 j]
      by_cases hj : j ∈ rest ∧ j < count
      · rw [if_pos hj, if_pos ⟨List.mem_cons_of_mem _ hj.1, hj.2⟩]
      · rw [if_neg hj]
        by_cases hi : i < count
        · by_cases hji : j = i
          · subst hji
            simp [hi, DevBuf.store, store]
          · have : ¬ (j ∈ i :: rest ∧ j < count) := by
              simp only [List.mem_cons, not_and]
              rintro (h | h) h'
              · exact hji h
              · exact hj ⟨h, h'⟩
            rw [if_neg this]
            simp [hi, DevBuf.store, store, hji]
        · have : ¬ (j ∈ i :: rest ∧ j < count) := by
            simp only [List.mem_cons, not_and]
            rintro (h | h) h'
            · omega
            · exact hj ⟨h, h'⟩
          rw [if_neg this]
          simp [hi]
    · rw [h2]
      by_cases hi : i < count
      · simp [hi, DevBuf.store, List.filter_cons]
      · simp [hi, List.filter_cons]

/-- The check loop counts the indices on which `==` holds, as long as the
counter stays an `int`. -/
theorem vadd_2_check_eq {F : Type} (ops : FloatOps F) (h_a h_b h_c : Nat → F) :
    ∀ (n i correct : Nat), i + n ≤ INT_MAX →
      vadd_2_check ops h_a h_b h_c n i correct =
        some (correct + (List.range' i n).countP
          (fun i => ops.eq (ops.add (h_a i) (h_b i)) (h_c i))) := by
  intro n
  induction n with
  | zero => intro i correct _; simp [vadd_2_check]
  | succ n ih =>
    intro i correct h
    rw [vadd_2_check, if_pos (by omega), ih _ _ (by omega), List.range'_succ,
      List.countP_cons]
    congr 1
    split <;> omega

/-- A check loop that has to pass `INT_MAX` has no result. -/
theorem vadd_2_check_overflow {F : Type} (ops : FloatOps F) (h_a h_b h_c : Nat → F) :
    ∀ (n i correct : Nat), i ≤ INT_MAX → INT_MAX < i + n →
      vadd_2_check ops h_a h_b h_c n i correct = none := by
  intro n
  induction n with
  | zero => intro i correct h1 h2; omega
  | succ n ih =>
    intro i correct h1 h2
    rw [vadd_2_check]
    by_cases hi : i < INT_MAX
    · rw [if_pos hi]
      exact ih (i + 1) _ (by omega) (by omega)
    · rw [if_neg hi]

/-- C7, amended: for `count` up to `INT_MAX = 2^31 - 1`, launched over a 1-D
index space of size `count`, the kernel `vector_add` writes
`c[i] = a[i] + b[i]` for every `i < count`; the indices stored to are
`0 .. count-1`, each once; and the host check of vadd_2.c, which compares
`h_c[i]` with `h_a[i] + h_b[i]`, reports `correct = count` when each sum
compares `==` to itself. -/
theorem vadd_2_all_correct {F : Type} (ops : FloatOps F) (h_a h_b h_c : Nat → F)
    (count : Nat) (schedule : List Nat) (hcount : count ≤ INT_MAX)
    (hs : schedule.Perm (List.range count))
    (hrefl : ∀ i, i < count →
      ops.eq (ops.add (h_a i) (h_b i)) (ops.add (h_a i) (h_b i)) = true) :
    ∃ d, vadd_2_ndrange ops h_a h_b ⟨h_c, []⟩ count schedule = some d ∧
      (∀ i, i < count → d.mem i = ops.add (h_a i) (h_b i)) ∧
      d.stored.Perm (List.range count) ∧
      d.stored.Nodup ∧
      vadd_2_run ops h_a h_b h_c count schedule = some count := by
  have hmem : ∀ i, i ∈ schedule ↔ i < count := fun i => by
    rw [hs.mem_iff, List.mem_range]
  obtain ⟨d, hd, h1, h2⟩ := vadd_2_ndrange_spec ops h_a h_b count schedule ⟨h_c, []⟩
    (fun g hg => by have := (hmem g).1 hg; omega)
  have hfilter : schedule.filter (fun i => decide (i < count)) = schedule := by
    rw [List.filter_eq_self]
    intro i hi
    simpa using (hmem i).1 hi
  have hstored : d.stored = schedule := by
    rw [h2, hfilter]; rfl
  have hval : ∀ i, i < count → d.mem i = ops.add (h_a i) (h_b i) := fun i hi => by
    rw [h1 i, if_pos ⟨(hmem i).2 hi, hi⟩]
  refine ⟨d, hd, hval, by rw [hstored]; exact hs, ?_, ?_⟩
  · rw [hstored]
    exact hs.nodup_iff.2 (List.nodup_range count)
  · unfold vadd_2_run
    rw [hd, Option.some_bind, vadd_2_check_eq ops h_a h_b d.mem count 0 0 (by omega),
      Nat.zero_add]
    have hall : ∀ i ∈ List.range' 0 count,
        ops.eq (ops.add (h_a i) (h_b i)) (d.mem i) = true := by
      intro i hi
      have hic : i < count := by
        rw [List.mem_range'_1] at hi; omega
      rw [hval i hic]
      exact hrefl i hic
    rw [List.countP_eq_length.2 hall, List.length_range']

/-- C7 on `a = [1/2, 1/3, 1/4]`, `b = [1, 2, 3]`, work items run in the order
`2, 0, 1`. -/
theorem vadd_2_all_correct_witness :
    ∃ d, vadd_2_ndrange exact_ops (fun i => 1 / ((i : ℚ) + 2)) (fun i => (i : ℚ) + 1)
        ⟨fun _ => 0, []⟩ 3 [2, 0, 1] = some d ∧
      (∀ i, i < 3 → d.mem i = exact_ops.add (1 / ((i : ℚ) + 2)) ((i : ℚ) + 1)) ∧
      d.stored.Perm (List.range 3) ∧
      d.stored.Nodup ∧
      vadd_2_run exact_ops (fun i => 1 / ((i : ℚ) + 2)) (fun i => (i : ℚ) + 1)
        (fun _ => 0) 3 [2, 0, 1] = some 3 :=
  vadd_2_all_correct exact_ops (fun i => 1 / ((i : ℚ) + 2)) (fun i => (i : ℚ) + 1)
    (fun _ => 0) 3 [2, 0, 1] (by decide) (by decide) (fun i _ => by simp [exact_ops])

/-- C7, as stated, fails on a NaN: with `count = 1`, `a = [NaN]` and `b = [0]`
the kernel writes `c[0] = NaN`, the host compares `NaN == NaN`, which is
false, and the check reports `correct = 0`. -/
theorem vadd_2_nan_not_counted :
    vadd_2_run (ieee_ops F32.add F32.sub) (fun _ => F32.nan) (fun _ => F32.fin false 0)
      (fun _ => F32.fin false 0) 1 [0] = some 0 := by
  decide

/-! ### Device selection -/

/-- The loop stops at the first platform whose lookup succeeds. -/
theorem select_loop_first_success (pre post : List Lookup) (p : Lookup) (d : Nat)
    (hpre : ∀ q ∈ pre, q.err ≠ CL_SUCCESS) (hp : p.err = CL_SUCCESS)
    (hd : p.device = some d) :
    ∀ (i : Nat) (st : Selection),
      select_loop (pre ++ p :: post) i st =
        ⟨CL_SUCCESS, d, st.queried ++ List.range' i (pre.length + 1)⟩ := by
  induction pre with
  | nil =>
    intro i st
    simp [select_loop, hp, hd]
  | cons q pre ih =>
    intro i st
    have hq : q.err ≠ CL_SUCCESS := hpre q (List.mem_cons_self _ _)
    rw [List.cons_append, select_loop]
    dsimp only
    rw [if_neg hq, ih (fun q' hq' => hpre q' (List.mem_cons_of_mem _ hq'))]
    simp [List.range'_succ]

/-- When every lookup fails the loop queries every platform and ends with the
code of the last lookup. -/
theorem select_loop_all_fail (l : List Lookup) (hl : ∀ q ∈ l, q.err ≠ CL_SUCCESS) :
    ∀ (i : Nat) (st : Selection),
      (select_loop l i st).queried = st.queried ++ List.range' i l.length ∧
      (l ≠ [] → (select_loop l i st).err ≠ CL_SUCCESS) ∧
      (l = [] → select_loop l i st = st) ∧
      ((∀ q ∈ l, q.device = none) → (select_loop l i st).device_id = st.device_id) := by
  induction l with
  | nil => intro i st; simp [select_loop]
  | cons q rest ih =>
    intro i st
    have hq : q.err ≠ CL_SUCCESS := hl q (List.mem_cons_self _ _)
    obtain ⟨h1, h2, h3, h4⟩ := ih (fun q' hq' => hl q' (List.mem_cons_of_mem _ hq'))
      (i + 1) ⟨q.err, q.device.getD st.device_id, st.queried ++ [i]⟩
    rw [select_loop]
    dsimp only
    rw [if_neg hq]
    refine ⟨?_, fun _ => ?_, fun h => by simp at h, fun hnone => ?_⟩
    · rw [h1]; simp [List.range'_succ]
    · by_cases hr : rest = []
      · rw [h3 hr]; exact hq
      · exact h2 hr
    · rw [h4 (fun q' hq' => hnone q' (List.mem_cons_of_mem _ hq'))]
      simp [hnone q (List.mem_cons_self _ _)]

/-- C9: over the platforms in enumeration order, each with its GPU lookup
result, the selection loop ends holding the device of the first platform
whose lookup succeeds: failed lookups on the platforms before it do not stop
the scan, the platforms `0 .. k` up to that one are each queried once, and no
later platform is queried. -/
theorem select_loop_first_gpu (pre post : List Lookup) (p : Lookup) (d : Nat)
    (st : Selection) (hst : st.queried = [])
    (hpre : ∀ q ∈ pre, q.err ≠ CL_SUCCESS) (hp : p.err = CL_SUCCESS)
    (hd : p.device = some d) :
    (select_loop (pre ++ p :: post) 0 st).device_id = d ∧
    (select_loop (pre ++ p :: post) 0 st).err = CL_SUCCESS ∧
    (select_loop (pre ++ p :: post) 0 st).queried = List.range (pre.length + 1) ∧
    (∀ k, pre.length < k → k ∉ (select_loop (pre ++ p :: post) 0 st).queried) := by
  rw [select_loop_first_success pre post p d hpre hp hd 0 st, hst]
  refine ⟨rfl, rfl, by simp [List.range_eq_range'], fun k hk => ?_⟩
  simp only [List.nil_append, List.mem_range'_1]
  omega

/-- C9 on four platforms: two failed lookups, then device `41`, then a
platform with device `42` that is never queried. -/
theorem select_loop_first_gpu_witness :
    (select_loop ([⟨-1, none⟩, ⟨-32, none⟩] ++ ⟨0, some 41⟩ :: [⟨0, some 42⟩]) 0
        ⟨0, 7, []⟩).device_id = 41 ∧
    (select_loop ([⟨-1, none⟩, ⟨-32, none⟩] ++ ⟨0, some 41⟩ :: [⟨0, some 42⟩]) 0
        ⟨0, 7, []⟩).err = CL_SUCCESS ∧
    (select_loop ([⟨-1, none⟩, ⟨-32, none⟩] ++ ⟨0, some 41⟩ :: [⟨0, some 42⟩]) 0
        ⟨0, 7, []⟩).queried = List.range (2 + 1) ∧
    (∀ k, 2 < k →
      k ∉ (select_loop ([⟨-1, none⟩, ⟨-32, none⟩] ++ ⟨0, some 41⟩ :: [⟨0, some 42⟩]) 0
        ⟨0, 7, []⟩).queried) :=
  select_loop_first_gpu [⟨-1, none⟩, ⟨-32, none⟩] [⟨0, some 42⟩] ⟨0, some 41⟩ 41 ⟨0, 7, []⟩
    rfl (by decide) (by decide) rfl

/-- C10 fails on vadd_2.c and vadd_3.c: one platform, its GPU lookup returns
`CL_DEVICE_NOT_FOUND` and stores nothing; `device_id`, never initialised,
holds a non-null value, so `checkError` is not reached and the program calls
`clCreateContext` on that value.  On the same input matmul_gpu.c, which also
tests `err`, ends in `checkError`. -/
theorem vadd_select_no_gpu_creates_context :
    vadd_select (fun err => decide (err ≠ CL_SUCCESS))
        ⟨CL_SUCCESS, CL_SUCCESS, [⟨CL_DEVICE_NOT_FOUND, none⟩]⟩ 3735928559 =
      .creates_context 3735928559 ∧
    matmul_gpu_select (fun err => decide (err ≠ CL_SUCCESS))
        ⟨CL_SUCCESS, CL_SUCCESS, [⟨CL_DEVICE_NOT_FOUND, none⟩]⟩ 3735928559 =
      .exits CL_DEVICE_NOT_FOUND := by
  decide

/-- On a non-empty list of platforms none of which has a GPU, matmul_gpu.c
ends in `checkError` with the code of the last lookup, whatever `device_id`
held, as long as `checkError` ends the program on every code other than
`CL_SUCCESS`. -/
theorem matmul_gpu_select_no_gpu (checkError : Int → Bool) (rt : Runtime) (device_id0 : Nat)
    (hcheck : ∀ err, err ≠ CL_SUCCESS → checkError err = true)
    (h1 : checkError rt.count_err = false) (h2 : checkError rt.list_err = false)
    (hne : rt.lookups ≠ []) (hfail : ∀ q ∈ rt.lookups, q.err ≠ CL_SUCCESS) :
    ∃ err, err ≠ CL_SUCCESS ∧ matmul_gpu_select checkError rt device_id0 = .exits err := by
  obtain ⟨-, h, -, -⟩ := select_loop_all_fail rt.lookups hfail 0 ⟨rt.list_err, device_id0, []⟩
  refine ⟨_, h hne, ?_⟩
  unfold matmul_gpu_select
  rw [h1, h2]
  simp only [Bool.false_eq_true, if_false]
  rw [if_pos (Or.inl (h hne)), hcheck _ (h hne)]
  simp

/-- On a list of platforms none of which has a GPU or stores a handle,
vadd_2.c and vadd_3.c call `clCreateContext` whenever the uninitialised
`device_id` is not null. -/
theorem vadd_select_skips_check (checkError : Int → Bool) (rt : Runtime) (device_id0 : Nat)
    (h1 : checkError rt.count_err = false) (h2 : checkError rt.list_err = false)
    (hfail : ∀ q ∈ rt.lookups, q.err ≠ CL_SUCCESS)
    (hnone : ∀ q ∈ rt.lookups, q.device = none) (hdev : device_id0 ≠ NULL) :
    vadd_select checkError rt device_id0 = .creates_context device_id0 := by
  obtain ⟨-, -, -, h⟩ := select_loop_all_fail rt.lookups hfail 0 ⟨rt.list_err, device_id0, []⟩
  have hdev' := h hnone
  simp only at hdev'
  unfold vadd_select
  rw [h1, h2]
  simp only [Bool.false_eq_true, if_false]
  rw [hdev', if_neg hdev]

/-! ### Empty buffers -/

/-- C13: when the buffers have length `0` the result check counts
`matched = 0` of `total = 0`, and the run is treated as fully verified: the
condition `correct == count` of vadd_3.c holds and its summary line is
printed, as is the summary line of vadd_2.c. -/
theorem empty_check_fully_verified {F : Type} (ops : FloatOps F)
    (h_a h_b h_c h_d : Nat → F) :
    vadd_3_check ops h_a h_b h_c h_d 0 0 0 = some 0 ∧
    vadd_3_report ops h_a h_b h_c h_d 0 = some [.correct_only 0, .correct_of_total 0 0] ∧
    vadd_2_check ops h_a h_b h_c 0 0 0 = some 0 ∧
    vadd_2_report ops h_a h_b h_c 0 = some [.correct_of_total 0 0] := by
  refine ⟨rfl, ?_, rfl, rfl⟩
  simp [vadd_3_report, vadd_3_check]

/-! ### Index ranges of `run_test` -/

/-- A summation loop completes exactly when each index it reads is inside the
array. -/
theorem sum_loop_isSome_iff (arr : List Int) :
    ∀ (n : Nat) (i acc : Int),
      (sum_loop arr n i acc).isSome ↔
        ∀ k : Nat, k < n → (array_read arr (i + (k : Int))).isSome := by
  intro n
  induction n with
  | zero => intro i acc; simp [sum_loop]
  | succ n ih =>
    intro i acc
    unfold sum_loop
    constructor
    · intro h k hk
      cases hr : array_read arr i with
      | none => rw [hr] at h; simp at h
      | some x =>
        rw [hr] at h
        rcases Nat.eq_zero_or_pos k with h0 | hpos
        · subst h0; simp [hr]
        · have := (ih (i + 1) (acc + x)).1 h (k - 1) (by omega)
          have e : i + 1 + ((k - 1 : Nat) : Int) = i + (k : Int) := by omega
          rwa [e] at this
    · intro h
      have h0 := h 0 (by omega)
      simp only [Nat.cast_zero, add_zero] at h0
      cases hr : array_read arr i with
      | none => rw [hr] at h0; simp at h0
      | some x =>
        dsimp only
        refine (ih (i + 1) (acc + x)).2 (fun k hk => ?_)
        have := h (k + 1) (by omega)
        have e : i + ((k + 1 : Nat) : Int) = i + 1 + (k : Int) := by push_cast; ring
        rwa [e] at this

/-- An array read is defined exactly on the indices `0 .. length - 1`. -/
theorem array_read_isSome_iff (arr : List Int) (i : Int) :
    (array_read arr i).isSome ↔ 0 ≤ i ∧ i < (arr.length : Int) := by
  unfold array_read
  by_cases h : 0 ≤ i
  · rw [if_pos h]
    by_cases h2 : i.toNat < arr.length
    · simp [List.getElem?_eq_getElem h2, h]; omega
    · rw [List.getElem?_eq_none (by omega)]
      simp; omega
  · rw [if_neg h]
    simp; omega

/-- The worker of a chunk completes its loop exactly when the indices listed
by `sum_part_reads` are inside `data`. -/
theorem sum_part_loop_isSome_iff (data : List Int) (td : ThreadData) :
    (sum_loop data (td.end_ - td.start).toNat td.start 0).isSome ↔
      ∀ j ∈ sum_part_reads td, 0 ≤ j ∧ j < (data.length : Int) := by
  rw [sum_loop_isSome_iff]
  simp only [sum_part_reads, List.mem_map, List.mem_range]
  constructor
  · rintro h j ⟨k, hk, rfl⟩
    exact (array_read_isSome_iff data _).1 (h k hk)
  · intro h k hk
    exact (array_read_isSome_iff data _).2 (h _ ⟨k, hk, rfl⟩)

/-- What `main` passes to `run_test`: a size from `sizes` and a worker count
between `1` and `MAX_THREADS`. -/
theorem main_calls_in_range (dwNumberOfProcessors : Int) (h : 1 ≤ dwNumberOfProcessors)
    (N : Int) (hN : N ∈ sizes) :
    1 ≤ main_num_cores dwNumberOfProcessors ∧
      main_num_cores dwNumberOfProcessors ≤ N ∧
      main_num_cores dwNumberOfProcessors ≤ (MAX_THREADS : Int) ∧ N ≤ 2 ^ 31 - 1 := by
  have hs : 1000000 ≤ N ∧ N ≤ 1000000000 := by
    simp only [sizes, List.mem_cons, List.mem_singleton, List.not_mem_nil, or_false] at hN
    omega
  unfold main_num_cores MAX_THREADS
  split <;> refine ⟨?_, ?_, ?_, ?_⟩ <;> simp only [Nat.cast_ofNat] at * <;> omega

/-- C14: for `1 ≤ P ≤ min(N, MAX_THREADS)` and `N ≤ 2^31 - 1`, every chunk
boundary `i * chunk_size` and `(i + 1) * chunk_size` computed by `run_test`
lies in `[0, N]` and is the value a signed 32-bit `int` holds; every index
`data[i]` read by `sum_part` lies in `[0, N)`; every `thread_index` lies in
`[0, MAX_THREADS)`; and the run completes without an access outside `data`,
`partial_sums`, `threads` or `thread_data`. -/
theorem run_test_accesses_in_range (N P : Int) (hP : 1 ≤ P) (hPN : P ≤ N)
    (hPM : P ≤ (MAX_THREADS : Int)) (hN : N ≤ 2 ^ 31 - 1) :
    (∀ i : Nat, (i : Int) < P →
      (0 ≤ (i : Int) * N.tdiv P ∧ (i : Int) * N.tdiv P ≤ N ∧
        wrap_int32 ((i : Int) * N.tdiv P) = (i : Int) * N.tdiv P) ∧
      (0 ≤ ((i : Int) + 1) * N.tdiv P ∧ ((i : Int) + 1) * N.tdiv P ≤ N ∧
        wrap_int32 (((i : Int) + 1) * N.tdiv P) = ((i : Int) + 1) * N.tdiv P)) ∧
    (∀ td ∈ partition N P, ∀ j ∈ sum_part_reads td, 0 ≤ j ∧ j < N) ∧
    (∀ td ∈ partition N P, 0 ≤ td.thread_index ∧ td.thread_index < (MAX_THREADS : Int)) ∧
    (∀ data ps : List Int, (data.length : Int) = N → ps.length = MAX_THREADS →
      ∃ r, run_sums data ps N P = some r ∧ r.thread_data = partition N P) := by
  obtain ⟨hc1, hc2, -, -⟩ := chunk_size_facts N P hP hPN
  have hwrap : ∀ x : Int, 0 ≤ x → x ≤ N → wrap_int32 x = x := by
    intro x h0 h1
    unfold wrap_int32
    omega
  have hbound : ∀ k : Int, 0 ≤ k → k ≤ P → 0 ≤ k * N.tdiv P ∧ k * N.tdiv P ≤ N := by
    intro k hk0 hkP
    have h1 : 0 ≤ k * N.tdiv P := Int.mul_nonneg hk0 (by omega)
    have h2 : k * N.tdiv P ≤ P * N.tdiv P :=
      Int.mul_le_mul_of_nonneg_right hkP (by omega)
    have h3 : P * N.tdiv P = N.tdiv P * P := Int.mul_comm _ _
    exact ⟨h1, by omega⟩
  refine ⟨fun i hi => ?_, ?_, ?_, ?_⟩
  · obtain ⟨a1, a2⟩ := hbound i (by omega) (by omega)
    obtain ⟨b1, b2⟩ := hbound ((i : Int) + 1) (by omega) (by omega)
    exact ⟨⟨a1, a2, hwrap _ a1 a2⟩, b1, b2, hwrap _ b1 b2⟩
  · intro td htd j hj
    obtain ⟨i, hi, rfl⟩ := (mem_partition N P td).1 htd
    obtain ⟨r1, r2, r3⟩ := chunk_in_range N P hP hPN i (by omega)
    simp only [sum_part_reads, List.mem_map, List.mem_range] at hj
    obtain ⟨k, hk, rfl⟩ := hj
    omega
  · intro td htd
    obtain ⟨i, hi, rfl⟩ := (mem_partition N P td).1 htd
    simp only [chunk]
    omega
  · intro data ps hd hps
    obtain ⟨r, h1, h2, -⟩ := run_sums_of_ranges data ps N P hd.symm hP hPM hps
      (fun k hk => chunk_in_range N P hP hPN k hk)
    exact ⟨r, h1, h2⟩

/-- C14 at `N = 10`, `P = 3`, on ten data entries. -/
theorem run_test_accesses_in_range_witness :
    (∀ td ∈ partition 10 3, ∀ j ∈ sum_part_reads td, 0 ≤ j ∧ j < 10) ∧
    (∀ td ∈ partition 10 3, 0 ≤ td.thread_index ∧ td.thread_index < (MAX_THREADS : Int)) ∧
    (∃ r, run_sums [1, 2, 3, 4, 5, 6, 7, 8, 9, 10] [0, 0, 0, 0, 0, 0, 0, 0] 10 3 = some r ∧
      r.thread_data = partition 10 3) :=
  ⟨(run_test_accesses_in_range 10 3 (by decide) (by decide) (by decide) (by decide)).2.1,
    (run_test_accesses_in_range 10 3 (by decide) (by decide) (by decide) (by decide)).2.2.1,
    (run_test_accesses_in_range 10 3 (by decide) (by decide) (by decide) (by decide)).2.2.2
      [1, 2, 3, 4, 5, 6, 7, 8, 9, 10] [0, 0, 0, 0, 0, 0, 0, 0] rfl rfl⟩

/-! ### The global `partial_sums` across runs -/

/-- A worker keeps the size of `partial_sums`. -/
theorem sum_part_length (data ps ps' : List Int) (td : ThreadData)
    (h : sum_part data ps td = some ps') : ps'.length = ps.length := by
  unfold sum_part at h
  split at h
  · exact absurd h (by simp)
  · unfold array_write at h
    split at h
    · rw [← Option.some.inj h, List.length_set]
    · exact absurd h (by simp)

/-- The launch loop keeps the size of `partial_sums`. -/
theorem launch_loop_length (data : List Int) (N P c : Int) :
    ∀ (n : Nat) (i : Int) (tds ps : _) (tds' ps' : _),
      launch_loop data N P c n i tds ps = some (tds', ps') → ps'.length = ps.length := by
  intro n
  induction n with
  | zero =>
    intro i tds ps tds' ps' h
    simp [launch_loop] at h
    rw [h.2]
  | succ n ih =>
    intro i tds ps tds' ps' h
    unfold launch_loop at h
    split at h
    · dsimp only at h
      split at h
      · exact absurd h (by simp)
      · rename_i ps1 hsp
        rw [ih _ _ _ _ _ h, sum_part_length _ _ _ _ hsp]
    · exact absurd h (by simp)

/-- A completed run leaves a `partial_sums` of the size it found, whatever the
worker count. -/
theorem run_sums_length (data ps : List Int) (N P : Int) (r : RunResult)
    (h : run_sums data ps N P = some r) : r.partial_sums.length = ps.length := by
  unfold run_sums at h
  split at h
  · exact absurd h (by simp)
  · split at h
    · exact absurd h (by simp)
    · rename_i tds ps1 hl
      split at h
      · exact absurd h (by simp)
      · split at h
        · exact absurd h (by simp)
        · rw [← Option.some.inj h]
          exact launch_loop_length data N P _ _ _ _ _ _ _ hl

/-- C15: the multithreaded total of `run_test` does not depend on what the
global `partial_sums` held before the call.  For `1 ≤ P ≤ min(N, MAX_THREADS)`
and any two initial contents, both runs complete with the same `total_sum`
(it is `N`): the slots `0 .. P-1` end up equal in both runs, being overwritten
before they are read, and the slots from `P` on keep what they held and do not
enter the total.  In particular the content left by an earlier run with
another worker count does not change the total. -/
theorem run_test_total_ignores_stale_slots (N P : Int) (ps1 ps2 : List Int)
    (hP : 1 ≤ P) (hPN : P ≤ N) (hPM : P ≤ (MAX_THREADS : Int))
    (h1 : ps1.length = MAX_THREADS) (h2 : ps2.length = MAX_THREADS) :
    (∃ r1 r2, run_test ps1 N P = some r1 ∧ run_test ps2 N P = some r2 ∧
      r1.total_sum = r2.total_sum ∧ r1.total_sum = N ∧
      (∀ k : Nat, (k : Int) < P → r1.partial_sums[k]? = r2.partial_sums[k]?) ∧
      (∀ k : Nat, P ≤ (k : Int) →
        r1.partial_sums[k]? = ps1[k]? ∧ r2.partial_sums[k]? = ps2[k]?)) ∧
    (∀ (P0 : Int) (r0 : RunResult), run_test ps1 N P0 = some r0 →
      ∃ r, run_test r0.partial_sums N P = some r ∧ r.total_sum = N) := by
  have hlenN : N = ((List.replicate N.toNat (1 : Int)).length : Int) := by
    rw [List.length_replicate]; omega
  have hs : (List.replicate N.toNat (1 : Int)).sum = N := by
    rw [List.sum_replicate, nsmul_eq_mul, mul_one]; omega
  have key : ∀ ps : List Int, ps.length = MAX_THREADS →
      ∃ r, run_test ps N P = some r ∧ r.total_sum = N ∧
        (∀ k : Nat, (k : Int) < P →
          r.partial_sums[k]? = some (chunk_sum (List.replicate N.toNat 1)
            (chunk N P (N.tdiv P) k))) ∧
        (∀ k : Nat, P ≤ (k : Int) → r.partial_sums[k]? = ps[k]?) := by
    intro ps hps
    obtain ⟨r, e1, -, e3, -, -, e6, e7⟩ := run_sums_of_ranges
      (List.replicate N.toNat 1) ps N P hlenN hP hPM hps
      (fun k hk => chunk_in_range N P hP hPN k hk)
    exact ⟨r, e1, by rw [e3, hs], e6, e7⟩
  constructor
  · obtain ⟨r1, a1, a2, a3, a4⟩ := key ps1 h1
    obtain ⟨r2, b1, b2, b3, b4⟩ := key ps2 h2
    exact ⟨r1, r2, a1, b1, by rw [a2, b2], a2, fun k hk => by rw [a3 k hk, b3 k hk],
      fun k hk => ⟨a4 k hk, b4 k hk⟩⟩
  · intro P0 r0 h0
    have hlen : r0.partial_sums.length = MAX_THREADS := by
      rw [run_sums_length _ ps1 N P0 r0 h0, h1]
    obtain ⟨r, c1, c2, -, -⟩ := key r0.partial_sums hlen
    exact ⟨r, c1, c2⟩

/-- C15 at `N = 10`, `P = 3`: zeroed slots against the slots left by a run
with eight workers on a larger array. -/
theorem run_test_total_ignores_stale_slots_witness :
    ∃ r1 r2, run_test [0, 0, 0, 0, 0, 0, 0, 0] 10 3 = some r1 ∧
      run_test [5, 5, 5, 5, 5, 5, 5, 8] 10 3 = some r2 ∧
      r1.total_sum = r2.total_sum ∧ r1.total_sum = 10 ∧
      (∀ k : Nat, (k : Int) < 3 → r1.partial_sums[k]? = r2.partial_sums[k]?) ∧
      (∀ k : Nat, (3 : Int) ≤ (k : Int) →
        r1.partial_sums[k]? = [0, 0, 0, 0, 0, 0, 0, 0][k]? ∧
          r2.partial_sums[k]? = [5, 5, 5, 5, 5, 5, 5, 8][k]?) :=
  (run_test_total_ignores_stale_slots 10 3 [0, 0, 0, 0, 0, 0, 0, 0] [5, 5, 5, 5, 5, 5, 5, 8]
    (by decide) (by decide) (by decide) rfl rfl).1

/-! ### Build errors and releases in the device pipelines -/

/-- Running `p ++ q`: if `checkError` ends the program inside `p`, the run of
`p` is the whole run; otherwise `q` runs from where `p` ended. -/
theorem exec_append (rt : Call → Int) (checkError : Int → Bool) (q : List Stmt) :
    ∀ (p : List Stmt) (st : Run), st.exited = false →
      exec rt checkError (p ++ q) st =
        if (exec rt checkError p st).exited then exec rt checkError p st
        else exec rt checkError q (exec rt checkError p st) := by
  intro p
  induction p with
  | nil => intro st h; simp [exec, h]
  | cons s rest ih =>
    intro st h
    cases s with
    | assign c => simp only [List.cons_append, exec]; exact ih _ h
    | or_assign c => simp only [List.cons_append, exec]; exact ih _ h
    | discard c => simp only [List.cons_append, exec]; exact ih _ h
    | checkError =>
      simp only [List.cons_append, exec]
      by_cases hc : checkError st.err = true
      · simp [hc]
      · simp only [hc, Bool.false_eq_true, if_false]
        exact ih _ h
    | print_log_if_failed =>
      simp only [List.cons_append, exec]
      by_cases hc : st.err = CL_SUCCESS
      · simp only [hc, ne_eq, not_true_eq_false, if_false]; exact ih _ h
      · simp only [hc, ne_eq, not_false_eq_true, if_true]; exact ih _ h

/-- A pipeline without a release call leaves no release in the trace. -/
theorem exec_released (rt : Call → Int) (checkError : Int → Bool) :
    ∀ (p : List Stmt) (st : Run), (∀ s ∈ p, s.call.bind Call.releases = none) →
      released (exec rt checkError p st).trace = released st.trace := by
  intro p
  induction p with
  | nil => intro st _; rfl
  | cons s rest ih =>
    intro st h
    have hs := h s (List.mem_cons_self _ _)
    have hrest : ∀ s ∈ rest, s.call.bind Call.releases = none :=
      fun s' hs' => h s' (List.mem_cons_of_mem _ hs')
    cases s with
    | assign c =>
      simp only [exec]
      rw [ih _ hrest]
      simp only [Stmt.call, Option.some_bind] at hs
      simp [released, hs]
    | or_assign c =>
      simp only [exec]
      rw [ih _ hrest]
      simp only [Stmt.call, Option.some_bind] at hs
      simp [released, hs]
    | discard c =>
      simp only [exec]
      rw [ih _ hrest]
      simp only [Stmt.call, Option.some_bind] at hs
      simp [released, hs]
    | checkError =>
      simp only [exec]
      split
      · rfl
      · exact ih _ hrest
    | print_log_if_failed =>
      simp only [exec]
      split
      · rw [ih _ hrest]
        simp [released, Call.releases]
      · exact ih _ hrest

/-- Only the statement of vadd_2.c that prints the build log prints it. -/
theorem exec_no_build_log (rt : Call → Int) (checkError : Int → Bool) :
    ∀ (p : List Stmt) (st : Run), Stmt.print_log_if_failed ∉ p →
      Event.printed_build_log ∉ st.trace →
      Event.printed_build_log ∉ (exec rt checkError p st).trace := by
  intro p
  induction p with
  | nil => intro st _ h; exact h
  | cons s rest ih =>
    intro st hp h
    have hrest : Stmt.print_log_if_failed ∉ rest :=
      fun hm => hp (List.mem_cons_of_mem _ hm)
    cases s with
    | assign c => simp only [exec]; exact ih _ hrest (by simpa using h)
    | or_assign c => simp only [exec]; exact ih _ hrest (by simpa using h)
    | discard c => simp only [exec]; exact ih _ hrest (by simpa using h)
    | checkError =>
      simp only [exec]
      split
      · exact h
      · exact ih _ hrest h
    | print_log_if_failed => exact absurd (List.mem_cons_self _ _) hp

theorem acquired_append (t u : List Event) : acquired (t ++ u) = acquired t ++ acquired u := by
  simp [acquired, List.filterMap_append]

theorem released_append (t u : List Event) : released (t ++ u) = released t ++ released u := by
  simp [released, List.filterMap_append]

/-- When a pipeline in which `checkError` follows each creating call runs to
its end, every resource it creates was acquired. -/
theorem exec_acquired (rt : Call → Int) (checkError : Int → Bool)
    (hz : ∀ err, checkError err = false → err = CL_SUCCESS) :
    ∀ (p : List Stmt) (st : Run), creates_checked p = true →
      (exec rt checkError p st).exited = false →
      acquired (exec rt checkError p st).trace = acquired st.trace ++ creates_of p := by
  intro p
  induction p with
  | nil => intro st _ _; simp [exec, creates_of]
  | cons s rest ih =>
    intro st hp hrun
    cases s with
    | assign c =>
      simp only [creates_checked, Bool.and_eq_true, Bool.or_eq_true] at hp
      obtain ⟨hc, hrest⟩ := hp
      simp only [exec] at hrun ⊢
      rw [ih _ hrest hrun, acquired_append]
      have hcre : creates_of (Stmt.assign c :: rest) = c.creates.toList ++ creates_of rest := by
        cases h : c.creates <;> simp [creates_of, Stmt.call, h]
      rw [hcre, List.append_assoc]
      congr 2
      rcases hc with hnone | hhead
      · have : c.creates = none := by simpa using hnone
        simp [acquired, this]
      · cases rest with
        | nil => simp at hhead
        | cons s2 rest2 =>
          have hs2 : s2 = Stmt.checkError := by simpa using hhead
          subst hs2
          simp only [exec] at hrun
          have hchk : checkError (rt c) = false := by
            by_contra hne
            have ht : checkError (rt c) = true := by simpa using hne
            rw [ht] at hrun
            simp at hrun
          have h0 := hz _ hchk
          cases h : c.creates <;> simp [acquired, h, h0]
    | or_assign c =>
      simp only [creates_checked, Bool.and_eq_true] at hp
      obtain ⟨hc, hrest⟩ := hp
      have hnone : c.creates = none := by simpa using hc
      simp only [exec] at hrun ⊢
      rw [ih _ hrest hrun, acquired_append]
      simp [acquired, creates_of, Stmt.call, hnone]
    | discard c =>
      simp only [creates_checked, Bool.and_eq_true] at hp
      obtain ⟨hc, hrest⟩ := hp
      have hnone : c.creates = none := by simpa using hc
      simp only [exec] at hrun ⊢
      rw [ih _ hrest hrun, acquired_append]
      simp [acquired, creates_of, Stmt.call, hnone]
    | checkError =>
      simp only [creates_checked] at hp
      simp only [exec] at hrun ⊢
      by_cases hc : checkError st.err = true
      · rw [hc] at hrun; simp at hrun
      · simp only [hc, Bool.false_eq_true, if_false] at hrun ⊢
        rw [ih _ hp hrun]
        simp [creates_of, Stmt.call]
    | print_log_if_failed =>
      simp only [creates_checked] at hp
      simp only [exec] at hrun ⊢
      by_cases hc : st.err = CL_SUCCESS
      · simp only [hc, ne_eq, not_true_eq_false, if_false] at hrun ⊢
        rw [ih _ hp hrun]
        simp [creates_of, Stmt.call]
      · simp only [hc, ne_eq, not_false_eq_true, if_true] at hrun ⊢
        rw [ih _ hp hrun, acquired_append]
        simp [acquired, creates_of, Stmt.call, Call.creates]

/-- The clean-up of vadd_2.c makes its seven release calls and nothing else. -/
theorem exec_vadd_2_cleanup (rt : Call → Int) (checkError : Int → Bool) (st : Run) :
    (exec rt checkError vadd_2_cleanup st).exited = st.exited ∧
    acquired (exec rt checkError vadd_2_cleanup st).trace = acquired st.trace ∧
    released (exec rt checkError vadd_2_cleanup st).trace =
      released st.trace ++
        [.mem .d_a, .mem .d_b, .mem .d_c, .program, .kernel, .commands, .context] := by
  simp [vadd_2_cleanup, exec, acquired, released, Call.creates, Call.releases,
    List.filterMap_append]

/-- C12, as stated, fails on vadd_2.c.  When every call succeeds, the seven
resources are released in the order `d_a`, `d_b`, `d_c`, program, kernel,
command queue, context, which is not the reverse of the order in which they
were acquired.  When `clFinish` fails, `checkError` ends the program with all
seven resources acquired and none released. -/
theorem vadd_2_releases_not_reversed :
    (exec (fun _ => CL_SUCCESS) exits_on_error vadd_2_main (Run.start CL_SUCCESS)).exited
      = false ∧
    acquired (exec (fun _ => CL_SUCCESS) exits_on_error vadd_2_main
        (Run.start CL_SUCCESS)).trace =
      [.context, .commands, .program, .mem .d_a, .mem .d_b, .mem .d_c, .kernel] ∧
    released (exec (fun _ => CL_SUCCESS) exits_on_error vadd_2_main
        (Run.start CL_SUCCESS)).trace =
      [.mem .d_a, .mem .d_b, .mem .d_c, .program, .kernel, .commands, .context] ∧
    released (exec (fun _ => CL_SUCCESS) exits_on_error vadd_2_main
        (Run.start CL_SUCCESS)).trace ≠
      (acquired (exec (fun _ => CL_SUCCESS) exits_on_error vadd_2_main
        (Run.start CL_SUCCESS)).trace).reverse ∧
    (exec finish_fails exits_on_error vadd_2_main (Run.start CL_SUCCESS)).exited = true ∧
    acquired (exec finish_fails exits_on_error vadd_2_main (Run.start CL_SUCCESS)).trace =
      [.context, .commands, .program, .mem .d_a, .mem .d_b, .mem .d_c, .kernel] ∧
    released (exec finish_fails exits_on_error vadd_2_main (Run.start CL_SUCCESS)).trace
      = [] := by
  decide

/-- C12, amended, for vadd_2.c: when `checkError` ends the program no release
call has been made; when the program runs to its end it has acquired the
context, the command queue, the program, the three buffers and the kernel, in
this order, and releases each of them once, in the order `d_a`, `d_b`, `d_c`,
program, kernel, command queue, context. -/
theorem vadd_2_release_paths (rt : Call → Int) (checkError : Int → Bool) (err0 : Int)
    (hcheck : ∀ err, err ≠ CL_SUCCESS → checkError err = true) :
    ((exec rt checkError vadd_2_main (Run.start err0)).exited = true →
      released (exec rt checkError vadd_2_main (Run.start err0)).trace = []) ∧
    ((exec rt checkError vadd_2_main (Run.start err0)).exited = false →
      acquired (exec rt checkError vadd_2_main (Run.start err0)).trace =
        [.context, .commands, .program, .mem .d_a, .mem .d_b, .mem .d_c, .kernel] ∧
      released (exec rt checkError vadd_2_main (Run.start err0)).trace =
        [.mem .d_a, .mem .d_b, .mem .d_c, .program, .kernel, .commands, .context]) := by
  have hz : ∀ err, checkError err = false → err = CL_SUCCESS := by
    intro err h
    by_contra hne
    rw [hcheck err hne] at h
    exact absurd h (by simp)
  have hbody_rel : released (exec rt checkError vadd_2_body (Run.start err0)).trace = [] :=
    exec_released rt checkError vadd_2_body (Run.start err0) (by decide)
  obtain ⟨c1, c2, c3⟩ := exec_vadd_2_cleanup rt checkError
    (exec rt checkError vadd_2_body (Run.start err0))
  have happ := exec_append rt checkError vadd_2_cleanup vadd_2_body (Run.start err0) rfl
  unfold vadd_2_main
  rw [happ]
  cases hb : (exec rt checkError vadd_2_body (Run.start err0)).exited with
  | true =>
    simp only [if_true]
    exact ⟨fun _ => hbody_rel, fun h => by rw [hb] at h; exact absurd h (by simp)⟩
  | false =>
    simp only [Bool.false_eq_true, if_false]
    refine ⟨fun h => ?_, fun _ => ⟨?_, ?_⟩⟩
    · rw [c1, hb] at h; exact absurd h (by simp)
    · rw [c2, exec_acquired rt checkError hz vadd_2_body (Run.start err0) (by decide) hb]
      have hcre : creates_of vadd_2_body =
          [.context, .commands, .program, .mem .d_a, .mem .d_b, .mem .d_c, .kernel] := by
        decide
      rw [hcre]
      rfl
    · rw [c3, hbody_rel]
      rfl

/-- C12 amended, on a runtime where every call succeeds. -/
theorem vadd_2_release_paths_witness :
    ((exec (fun _ => CL_SUCCESS) exits_on_error vadd_2_main (Run.start 0)).exited = true →
      released (exec (fun _ => CL_SUCCESS) exits_on_error vadd_2_main (Run.start 0)).trace
        = []) ∧
    ((exec (fun _ => CL_SUCCESS) exits_on_error vadd_2_main (Run.start 0)).exited = false →
      acquired (exec (fun _ => CL_SUCCESS) exits_on_error vadd_2_main (Run.start 0)).trace =
        [.context, .commands, .program, .mem .d_a, .mem .d_b, .mem .d_c, .kernel] ∧
      released (exec (fun _ => CL_SUCCESS) exits_on_error vadd_2_main (Run.start 0)).trace =
        [.mem .d_a, .mem .d_b, .mem .d_c, .program, .kernel, .commands, .context]) :=
  vadd_2_release_paths (fun _ => CL_SUCCESS) exits_on_error 0
    (fun err h => by simp [exits_on_error, h])

/-- vadd_3.c and matmul_gpu.c make no release call on any path. -/
theorem no_release_in_vadd_3_and_matmul_gpu (rt : Call → Int) (checkError : Int → Bool)
    (err0 : Int) :
    released (exec rt checkError vadd_3_main (Run.start err0)).trace = [] ∧
    released (exec rt checkError matmul_gpu_main (Run.start err0)).trace = [] :=
  ⟨exec_released rt checkError vadd_3_main (Run.start err0) (by decide),
    exec_released rt checkError matmul_gpu_main (Run.start err0) (by decide)⟩

/-- vadd_3.c and matmul_gpu.c never print a build log, whatever the build
returns. -/
theorem no_build_log_in_vadd_3_and_matmul_gpu (rt : Call → Int) (checkError : Int → Bool)
    (err0 : Int) :
    Event.printed_build_log ∉ (exec rt checkError vadd_3_main (Run.start err0)).trace ∧
    Event.printed_build_log ∉ (exec rt checkError matmul_gpu_main (Run.start err0)).trace :=
  ⟨exec_no_build_log rt checkError vadd_3_main (Run.start err0) (by decide)
      (by simp [Run.start]),
    exec_no_build_log rt checkError matmul_gpu_main (Run.start err0) (by decide)
      (by simp [Run.start])⟩

/-- C11 fails on all three programs: on a runtime where `clBuildProgram`
returns `CL_BUILD_PROGRAM_FAILURE`, vadd_3.c and matmul_gpu.c print no build
log, create their buffers and upload the inputs, and stop only later, on the
code of another call; vadd_2.c prints the build log and then creates its
buffers and uploads the inputs all the same. -/
theorem build_failure_does_not_stop_pipeline :
    (exec build_fails exits_on_error vadd_3_main (Run.start CL_SUCCESS)).exited = true ∧
    (exec build_fails exits_on_error vadd_3_main (Run.start CL_SUCCESS)).err =
      CL_INVALID_PROGRAM_EXECUTABLE ∧
    (exec build_fails exits_on_error vadd_3_main (Run.start CL_SUCCESS)).trace =
      [.called .clCreateContext 0, .called .clCreateCommandQueueWithProperties 0,
        .called .clCreateProgramWithSource 0, .called .clBuildProgram (-11),
        .called (.clCreateBuffer .d_a) 0, .called (.clCreateBuffer .d_b) 0,
        .called (.clCreateBuffer .d_c) 0, .called (.clCreateBuffer .d_d) 0,
        .called (.clEnqueueWriteBuffer .d_a) 0, .called (.clEnqueueWriteBuffer .d_b) 0,
        .called (.clEnqueueWriteBuffer .d_c) 0, .called .clCreateKernel (-45)] ∧
    (exec build_fails exits_on_error matmul_gpu_main (Run.start CL_SUCCESS)).exited = true ∧
    (exec build_fails exits_on_error matmul_gpu_main (Run.start CL_SUCCESS)).err =
      CL_INVALID_KERNEL ∧
    (exec build_fails exits_on_error matmul_gpu_main (Run.start CL_SUCCESS)).trace =
      [.called .clCreateContext 0, .called .clCreateCommandQueueWithProperties 0,
        .called .clCreateProgramWithSource 0, .called .clBuildProgram (-11),
        .called (.clCreateBuffer .d_a) 0, .called (.clCreateBuffer .d_b) 0,
        .called (.clCreateBuffer .d_c) 0,
        .called (.clEnqueueWriteBuffer .d_a) 0, .called (.clEnqueueWriteBuffer .d_b) 0,
        .called .clCreateKernel (-45),
        .called (.clSetKernelArg 0) (-48), .called (.clSetKernelArg 1) (-48),
        .called (.clSetKernelArg 2) (-48), .called (.clSetKernelArg 3) (-48),
        .called (.clSetKernelArg 4) (-48), .called (.clSetKernelArg 5) (-48)] ∧
    (exec build_fails exits_on_error vadd_2_main (Run.start CL_SUCCESS)).exited = true ∧
    (exec build_fails exits_on_error vadd_2_main (Run.start CL_SUCCESS)).err =
      CL_INVALID_PROGRAM_EXECUTABLE ∧
    (exec build_fails exits_on_error vadd_2_main (Run.start CL_SUCCESS)).trace =
      [.called .clCreateContext 0, .called .clCreateCommandQueueWithProperties 0,
        .called .clCreateProgramWithSource 0, .called .clBuildProgram (-11),
        .called .clGetProgramBuildInfo 0, .printed_build_log,
        .called (.clCreateBuffer .d_a) 0, .called (.clCreateBuffer .d_b) 0,
        .called (.clCreateBuffer .d_c) 0,
        .called (.clEnqueueWriteBuffer .d_a) 0, .called (.clEnqueueWriteBuffer .d_b) 0,
        .called .clCreateKernel (-45)] := by
  decide

end NoobGpu
